import Mathlib

/-!
Shallow embedding of the CuteKit dependency-resolution model
(`cutekit/model.py`), the cdefs build variable (`cutekit/builder.py`)
and string expansion (`cutekit/jexpr.py`), together with proofs about
the spec claims for this code.
-/

namespace Cutekit

/-- Python values that occur in target/component props: booleans,
strings and integers. Mirrors the dynamically typed `Props = dict[str, Any]`. -/
inductive PValue where
  | vBool (b : Bool)
  | vStr (s : String)
  | vInt (n : Int)
deriving DecidableEq

/-- Python `==` on prop values: `bool` compares equal to `int` via 0/1
coercion, as in CPython. -/
def PValue.pyEq : PValue → PValue → Bool
  | .vBool a, .vBool b => a == b
  | .vStr a, .vStr b => a == b
  | .vInt a, .vInt b => a == b
  | .vBool a, .vInt b => (if a then (1 : Int) else 0) == b
  | .vInt a, .vBool b => a == (if b then (1 : Int) else 0)
  | _, _ => false

/-- Python `str()` of a prop value: `True`/`False` for booleans. -/
def PValue.pyStr : PValue → String
  | .vBool true => "True"
  | .vBool false => "False"
  | .vStr s => s
  | .vInt n => toString n

/-- Decidable equality for `Except`, used to evaluate resolver runs. -/
instance {α β : Type} [DecidableEq α] [DecidableEq β] :
    DecidableEq (Except α β) := fun x y =>
  match x, y with
  | .error a, .error b =>
    decidable_of_iff (a = b)
      (by constructor
          · intro h; rw [h]
          · intro h; injection h)
  | .error _, .ok _ => isFalse (by intro h; injection h)
  | .ok _, .error _ => isFalse (by intro h; injection h)
  | .ok a, .ok b =>
    decidable_of_iff (a = b)
      (by constructor
          · intro h; rw [h]
          · intro h; injection h)

/-- First-match association-list lookup; models Python `dict` access
(keys are unique in a dict, so first match is the match). -/
def lookupAssoc {α : Type} (l : List (String × α)) (k : String) : Option α :=
  match l with
  | [] => none
  | (k', v) :: rest => if k' = k then some v else lookupAssoc rest k

/-- Props of a target or component: insertion-ordered string-keyed dict. -/
abbrev Props := List (String × PValue)

/-- `model.Target`: the fields that take part in dependency resolution. -/
structure Target where
  id : String
  props : Props := []
  routing : List (String × String) := []
deriving DecidableEq

/-- `model.Component`: the fields that take part in dependency resolution. -/
structure Component where
  id : String
  enableIf : List (String × List PValue) := []
  requires : List String := []
  provides : List String := []
  injects : List String := []
deriving DecidableEq

/-- `model.Resolved`: output of the resolver for one component and target. -/
structure Resolved where
  reason : Option String := none
  required : List String := []
  injected : List String := []
deriving DecidableEq

/-- `Resolved.enabled`: a component is enabled iff it has no disable reason. -/
def Resolved.enabled (r : Resolved) : Bool := r.reason = none

/-- Loop of `Component.isEnabled` over the `enableIf` dict in insertion
order: the first failing key produces the disable reason. -/
def enabledCheck (t : Target) : List (String × List PValue) → Bool × String
  | [] => (true, "")
  | (k, vs) :: rest =>
    match lookupAssoc t.props k with
    | none => (false, "Missing props '" ++ k ++ "' in target")
    | some pv =>
      if vs.any (fun x => pv.pyEq x) then
        enabledCheck t rest
      else
        (false, "Props missmatch for '" ++ k ++ "': Got '" ++ pv.pyStr
          ++ "' but expected "
          ++ String.intercalate ", " (vs.map (fun x => "'" ++ x.pyStr ++ "'")))

/-- `Component.isEnabled`: check every `enableIf` condition against the
target's props; returns the enabled flag and the disable reason. -/
def Component.isEnabled (c : Component) (t : Target) : Bool × String :=
  enabledCheck t c.enableIf

/-- Modelled from the spec: `utils.uniqPreserveOrder`, which is called by
`Resolver.resolve` and by the injection pass of `Registry._loadDependencies`
but is missing from the provided sources (only callers are present).
The spec states: "Deduplicate preserving first occurrence." -/
def uniqPreserveOrder (l : List String) : List String :=
  l.foldl (fun acc x => if acc.contains x then acc else acc ++ [x]) []

/-- Helper for `firstOccDedup`, structurally recursive on a length bound
so that it evaluates by kernel reduction. -/
def firstOccDedupAux : Nat → List String → List String
  | _, [] => []
  | 0, _ :: _ => []
  | n + 1, x :: xs => x :: firstOccDedupAux n (xs.filter (fun y => decide (y ≠ x)))

/-- Reference form of first-occurrence deduplication, following the
spec wording: keep each element's first occurrence, drop later ones. -/
def firstOccDedup (l : List String) : List String :=
  firstOccDedupAux l.length l

/-- One component's contribution to the provider map of `Resolver._bake`:
one entry for each occurrence of `spec` in `provides + [id]`. -/
def bakeOne (spec : String) (c : Component) : List Component :=
  ((c.provides ++ [c.id]).filter (fun p => p = spec)).map (fun _ => c)

/-- `Registry.lookup(name, Component)`: direct id lookup. -/
def lookupComp (reg : List Component) (i : String) : Option Component :=
  match reg with
  | [] => none
  | c :: rest => if c.id = i then some c else lookupComp rest i

/-- The provider list `Resolver._mappings[spec]` after `_bake`:
target routing overrides the providers collected from `provides`/`id`. -/
def mappingsFor (reg : List Component) (t : Target) (spec : String) :
    List Component :=
  match lookupAssoc t.routing spec with
  | some v =>
    match lookupComp reg v with
    | some c => [c]
    | none => []
  | none => (reg.map (bakeOne spec)).flatten

/-- Tail of `Resolver._provider` after the single-disabled-candidate check:
filter to enabled providers, then demand exactly one. -/
def providerPost (t : Target) (spec : String) (result : List Component) :
    Option String × String :=
  match result.filter (fun c => (c.isEnabled t).fst) with
  | [] => (none, "No provider for '" ++ spec ++ "'")
  | [c] => (some c.id, "")
  | cs => (none, "Multiple providers for '" ++ spec ++ "': "
      ++ String.intercalate "," (cs.map Component.id))

/-- `Resolver._provider`: if there is exactly one candidate and it is
disabled, report its own disable reason; otherwise filter and select. -/
def provider (reg : List Component) (t : Target) (spec : String) :
    Option String × String :=
  match mappingsFor reg t spec with
  | [c] =>
    if (c.isEnabled t).fst then providerPost t spec [c]
    else (none, (c.isEnabled t).snd)
  | result => providerPost t spec result

/-- The resolver's memoization cache `Resolver._cache`. -/
abbrev Cache := List (String × Resolved)

/-- `self._cache[k] = r`: later entries shadow earlier ones under
first-match lookup, which models dict overwrite. -/
def cacheInsert (cache : Cache) (k : String) (r : Resolved) : Cache :=
  (k, r) :: cache

/-- Python `repr` of a list of strings, as interpolated into the
dependency-loop error message. -/
def pyListRepr (l : List String) : String :=
  "[" ++ String.intercalate ", " (l.map (fun s => "'" ++ s ++ "'")) ++ "]"

/-- Outcome of the requirements loop inside `Resolver.resolve`. -/
inductive ReqsResult where
  | failed (reason : String) (cache : Cache)
  | success (required : List String) (cache : Cache)
deriving DecidableEq

/-- The `for req in component.requires` loop of `Resolver.resolve`:
resolve each requirement in order, stop at the first disabled one,
and concatenate the required lists of the rest. -/
def resolveMany
    (resolveOne : String → List String → Cache → Except String (Resolved × Cache)) :
    List String → List String → Cache → Except String ReqsResult
  | [], _, cache => .ok (.success [] cache)
  | req :: rest, stack, cache =>
    match resolveOne req stack cache with
    | .error e => .error e
    | .ok (r, cache1) =>
      match r.reason with
      | some reason => .ok (.failed reason cache1)
      | none =>
        match resolveMany resolveOne rest stack cache1 with
        | .error e => .error e
        | .ok (.failed reason cache2) => .ok (.failed reason cache2)
        | .ok (.success flat cache2) => .ok (.success (r.required ++ flat) cache2)

/-- `Resolver.resolve(what, stack)` with explicit cache threading and a
fuel bound for the recursion; the dependency-loop `RuntimeError` is the
`Except.error` case. -/
def resolveF (reg : List Component) (t : Target) :
    Nat → String → List String → Cache → Except String (Resolved × Cache)
  | 0, _, _, _ => .error "out of fuel"
  | fuel + 1, what, stack, cache =>
    match lookupAssoc cache what with
    | some r => .ok (r, cache)
    | none =>
      match provider reg t what with
      | (none, unresolvedReason) =>
        let r : Resolved := { reason := some unresolvedReason }
        .ok (r, cacheInsert cache what r)
      | (some keep, _) =>
        match lookupAssoc cache keep with
        | some r => .ok (r, cache)
        | none =>
          if keep ∈ stack then
            .error ("Dependency loop while resolving '" ++ what ++ "': "
              ++ pyListRepr stack ++ " -> " ++ keep)
          else
            match lookupComp reg keep with
            | none => .ok ({ reason := some ("No provider for '" ++ keep ++ "'") }, cache)
            | some component =>
              match resolveMany (resolveF reg t fuel) component.requires
                  (stack ++ [keep]) cache with
              | .error e => .error e
              | .ok (.failed reason cache1) =>
                let r : Resolved := { reason := some reason }
                .ok (r, cacheInsert cache1 keep r)
              | .ok (.success flat cache1) =>
                let r : Resolved := { required := uniqPreserveOrder (keep :: flat) }
                .ok (r, cacheInsert cache1 keep r)

/-- Convenience accessor: the `Resolved` returned by a fresh
`Resolver.resolve(what)` call, or `none` on a raised error. -/
def runResolve (reg : List Component) (t : Target) (fuel : Nat)
    (what : String) : Option Resolved :=
  match resolveF reg t fuel what [] [] with
  | .ok (r, _) => some r
  | .error _ => none

/-- The first loop of `Registry._loadDependencies`: resolve `c.id` for
every component in registry order, sharing one resolver cache, and
record the result under the component's id. -/
def resolveAll (reg : List Component) (t : Target) (fuel : Nat) :
    List Component → Cache → Except String (List (String × Resolved) × Cache)
  | [], cache => .ok ([], cache)
  | c :: rest, cache =>
    match resolveF reg t fuel c.id [] cache with
    | .error e => .error e
    | .ok (r, cache1) =>
      match resolveAll reg t fuel rest cache1 with
      | .error e => .error e
      | .ok (m, cache2) => .ok ((c.id, r) :: m, cache2)

/-- `Registry.lookup(name, Component, includeProvides=True)`: direct id
lookup first, then the first component whose `provides` contains the name. -/
def lookupCompProvides (reg : List Component) (name : String) :
    Option Component :=
  match lookupComp reg name with
  | some c => some c
  | none => reg.find? (fun c => c.provides.contains name)

/-- In-place update of one component's `Resolved` entry (dict mutation). -/
def setResolved (m : List (String × Resolved)) (k : String) (r : Resolved) :
    List (String × Resolved) :=
  match m with
  | [] => []
  | (k', r') :: rest =>
    if k' = k then (k, r) :: rest else (k', r') :: setResolved rest k r

/-- The inner `for inject in c.injects` loop of the injection pass: for
each inject spec find the victim, append the injector to its `injected`
list and recompute its `required` as
`uniqPreserveOrder(c.required ++ victim.required)`. -/
def applyInjectsFor (reg : List Component) (cid : String)
    (injects : List String) (m : List (String × Resolved)) :
    List (String × Resolved) :=
  injects.foldl (fun m' inj =>
    match lookupCompProvides reg inj with
    | none => m'
    | some victim =>
      match lookupAssoc m' victim.id, lookupAssoc m' cid with
      | some vr, some cr =>
        setResolved m' victim.id
          { vr with
            injected := vr.injected ++ [cid],
            required := uniqPreserveOrder (cr.required ++ vr.required) }
      | _, _ => m') m

/-- The injection pass of `Registry._loadDependencies`: every enabled
component injects itself into its victims, in registry order. -/
def applyInjects (reg : List Component) (m0 : List (String × Resolved)) :
    List (String × Resolved) :=
  reg.foldl (fun m c =>
    match lookupAssoc m c.id with
    | some r => if r.reason = none then applyInjectsFor reg c.id c.injects m else m
    | none => m) m0

/-- `Registry._loadDependencies` restricted to one target: resolve every
component, then apply the injection pass. -/
def loadDependencies (reg : List Component) (t : Target) (fuel : Nat) :
    Except String (List (String × Resolved)) :=
  match resolveAll reg t fuel reg [] with
  | .error e => .error e
  | .ok (m, _) => .ok (applyInjects reg m)

/-- Convenience accessor: `c.resolved[t.id]` after a successful registry
load, or `none` when the id is unknown or loading raised. -/
def loadResolved (reg : List Component) (t : Target) (fuel : Nat)
    (cid : String) : Option Resolved :=
  match loadDependencies reg t fuel with
  | .error _ => none
  | .ok m => lookupAssoc m cid

/-- `builder._computeCdef`'s `sanatize`: replace space, dash and dot by
underscores, then keep only alphanumeric characters and underscores. -/
def sanatize (s : String) : String :=
  String.mk
    (((s.toList.map (fun c => if c = ' ' ∨ c = '-' ∨ c = '.' then '_' else c)).filter
      (fun c => c.isAlphanum ∨ c = '_')))

/-- The preprocessor defines emitted for one target prop by
`builder._computeCdef`: one flag for boolean `true`, none for boolean
`false`, two flags for any other value. -/
def cdefEmit (k : String) (v : PValue) : List String :=
  match v with
  | .vBool b =>
    if b then ["-D__ck_" ++ sanatize k ++ "__"] else []
  | _ =>
    ["-D__ck_" ++ sanatize k ++ "_" ++ sanatize v.pyStr ++ "__",
     "-D__ck_" ++ sanatize k ++ "_value=" ++ v.pyStr]

/-- Code-point lexicographic comparison of character lists, the order
used by Python `sorted` on strings. -/
def strLeChars : List Char → List Char → Bool
  | [], _ => true
  | _ :: _, [] => false
  | c :: cs, d :: ds =>
    if c.toNat < d.toNat then true
    else if d.toNat < c.toNat then false
    else strLeChars cs ds

/-- Code-point lexicographic comparison of strings. -/
def strLe (a b : String) : Bool :=
  strLeChars a.toList b.toList

/-- Insert into a sorted list of strings. -/
def insertSorted (x : String) : List String → List String
  | [] => [x]
  | y :: ys => if strLe x y then x :: y :: ys else y :: insertSorted x ys

/-- Insertion sort on strings, modelling Python `sorted`. -/
def sortStrings (l : List String) : List String :=
  l.foldr insertSorted []

/-- `builder._computeCdef`: collect the flags of every target prop into a
set and return them sorted; the Python set is modelled by deduplicating
before sorting. -/
def computeCdef (props : Props) : List String :=
  sortStrings (uniqPreserveOrder ((props.map (fun p => cdefEmit p.fst p.snd)).flatten))

/-- Scan the characters after a literal opening brace up to the first
closing brace: the `[^}]*}` part of `jexpr.REXPR`. -/
def takeToClose : List Char → Option (List Char × List Char)
  | [] => none
  | c :: rest =>
    if c = '\x7d' then some ([], rest)
    else (takeToClose rest).map (fun p => (c :: p.1, p.2))

/-- Leftmost match of `jexpr.REXPR` (`\x7b[^\x7d]*\x7d`): the text before
the match, the code between braces, and the rest of the string. Returns
`none` when no match exists, in particular when a literal opening brace
has no closing brace anywhere after it. -/
def findBraceExpr : List Char → Option (List Char × List Char × List Char)
  | [] => none
  | c :: rest =>
    if c = '\x7b' then
      match takeToClose rest with
      | some (code, after) => some ([], code, after)
      | none => none
    else
      (findBraceExpr rest).map (fun p => (c :: p.1, p.2.1, p.2.2))

/-- The `while span := REXPR.search(expr)` loop of
`jexpr._evalStrExprAsync`, with the Python `eval` of the brace contents
abstracted as `evalCode`: expand every brace expression left to right and
append the remaining text unchanged once no match is found. -/
def evalStrLoop (evalCode : List Char → Except String (List Char)) :
    Nat → List Char → Except String (List Char)
  | 0, _ => .error "out of fuel"
  | fuel + 1, expr =>
    match findBraceExpr expr with
    | none => .ok expr
    | some (before, code, after) =>
      match evalCode code with
      | .error e => .error e
      | .ok value =>
        match evalStrLoop evalCode fuel after with
        | .error e => .error e
        | .ok tail => .ok (before ++ value ++ tail)

theorem firstOccDedupAux_eq_of_le (n : Nat) :
    ∀ (m : Nat) (l : List String), l.length ≤ n → l.length ≤ m →
      firstOccDedupAux n l = firstOccDedupAux m l := by
  induction n with
  | zero =>
    intro m l hn _
    have hl : l = [] := List.length_eq_zero.mp (Nat.le_zero.mp hn)
    subst hl
    cases m <;> rfl
  | succ n ih =>
    intro m l hn hm
    cases l with
    | nil => cases m <;> rfl
    | cons x xs =>
      cases m with
      | zero => exact absurd hm (by simp)
      | succ m =>
        simp only [firstOccDedupAux]
        have hlen : (xs.filter (fun y => decide (y ≠ x))).length ≤ xs.length :=
          List.length_filter_le _ _
        have hxs : xs.length ≤ n := Nat.le_of_succ_le_succ (by simpa using hn)
        have hxm : xs.length ≤ m := Nat.le_of_succ_le_succ (by simpa using hm)
        rw [ih m (xs.filter (fun y => decide (y ≠ x)))
          (Nat.le_trans hlen hxs) (Nat.le_trans hlen hxm)]

theorem firstOccDedup_nil : firstOccDedup [] = [] := rfl

theorem firstOccDedup_cons (x : String) (xs : List String) :
    firstOccDedup (x :: xs)
      = x :: firstOccDedup (xs.filter (fun y => decide (y ≠ x))) := by
  simp only [firstOccDedup, List.length_cons, firstOccDedupAux]
  rw [firstOccDedupAux_eq_of_le (List.length xs)
      (List.length (xs.filter (fun y => decide (y ≠ x))))
      (xs.filter (fun y => decide (y ≠ x)))
      (List.length_filter_le _ _) (Nat.le_refl _)]

theorem mem_firstOccDedup (a : String) :
    ∀ (n : Nat) (l : List String), l.length ≤ n →
      (a ∈ firstOccDedup l ↔ a ∈ l) := by
  intro n
  induction n with
  | zero =>
    intro l hn
    have hl : l = [] := List.length_eq_zero.mp (Nat.le_zero.mp hn)
    subst hl; simp [firstOccDedup_nil]
  | succ n ih =>
    intro l hn
    cases l with
    | nil => simp [firstOccDedup_nil]
    | cons x xs =>
      rw [firstOccDedup_cons]
      by_cases hax : a = x
      · subst hax; simp
      · have hlen : (xs.filter (fun y => decide (y ≠ x))).length ≤ n :=
          Nat.le_trans (List.length_filter_le _ _)
            (Nat.le_of_succ_le_succ (by simpa using hn))
        simp only [List.mem_cons, hax, false_or]
        rw [ih _ hlen]
        constructor
        · intro h
          exact (List.mem_filter.mp h).1
        · intro h
          exact List.mem_filter.mpr ⟨h, by simpa using hax⟩

theorem nodup_firstOccDedup :
    ∀ (n : Nat) (l : List String), l.length ≤ n → (firstOccDedup l).Nodup := by
  intro n
  induction n with
  | zero =>
    intro l hn
    have hl : l = [] := List.length_eq_zero.mp (Nat.le_zero.mp hn)
    subst hl; simp [firstOccDedup_nil]
  | succ n ih =>
    intro l hn
    cases l with
    | nil => simp [firstOccDedup_nil]
    | cons x xs =>
      rw [firstOccDedup_cons]
      have hlen : (xs.filter (fun y => decide (y ≠ x))).length ≤ n :=
        Nat.le_trans (List.length_filter_le _ _)
          (Nat.le_of_succ_le_succ (by simpa using hn))
      refine List.nodup_cons.mpr ⟨?_, ih _ hlen⟩
      intro hmem
      have hx := (mem_firstOccDedup x _ _ (Nat.le_refl _)).mp hmem
      have := (List.mem_filter.mp hx).2
      simp at this

theorem uniq_foldl_eq (l : List String) :
    ∀ acc : List String,
      List.foldl (fun acc x => if acc.contains x then acc else acc ++ [x]) acc l
        = acc ++ firstOccDedup (l.filter (fun y => !acc.contains y)) := by
  induction l with
  | nil => intro acc; simp [firstOccDedup_nil]
  | cons x xs ih =>
    intro acc
    cases hc : acc.contains x with
    | true =>
      have hmem : x ∈ acc := by simpa using hc
      have h1 :
          List.foldl (fun acc x => if acc.contains x then acc else acc ++ [x])
              acc (x :: xs)
            = List.foldl (fun acc x => if acc.contains x then acc else acc ++ [x])
              acc xs := by
        simp [List.foldl_cons, hmem]
      have h2 : (x :: xs).filter (fun y => !acc.contains y)
          = xs.filter (fun y => !acc.contains y) := by
        simp [List.filter_cons, hmem]
      rw [h1, h2, ih acc]
    | false =>
      have hmem : x ∉ acc := by simpa using hc
      have h1 :
          List.foldl (fun acc x => if acc.contains x then acc else acc ++ [x])
              acc (x :: xs)
            = List.foldl (fun acc x => if acc.contains x then acc else acc ++ [x])
              (acc ++ [x]) xs := by
        simp [List.foldl_cons, hmem]
      have h2 : (x :: xs).filter (fun y => !acc.contains y)
          = x :: xs.filter (fun y => !acc.contains y) := by
        simp [List.filter_cons, hmem]
      rw [h1, h2, ih (acc ++ [x]), firstOccDedup_cons, List.filter_filter]
      rw [List.append_assoc]
      have hpred :
          (fun y => !(acc ++ [x]).contains y)
            = (fun y => decide (y ≠ x) && !acc.contains y) := by
        funext y
        by_cases hy : y = x
        · subst hy; simp
        · simp [hy]
      rw [hpred]
      simp

theorem uniqPreserveOrder_eq_firstOccDedup (l : List String) :
    uniqPreserveOrder l = firstOccDedup l := by
  have h := uniq_foldl_eq l []
  simpa [uniqPreserveOrder] using h

theorem uniqPreserveOrder_cons_head (x : String) (xs : List String) :
    ∃ rest, uniqPreserveOrder (x :: xs) = x :: rest := by
  rw [uniqPreserveOrder_eq_firstOccDedup, firstOccDedup_cons]
  exact ⟨_, rfl⟩

theorem mem_uniqPreserveOrder (a : String) (l : List String) :
    a ∈ uniqPreserveOrder l ↔ a ∈ l := by
  rw [uniqPreserveOrder_eq_firstOccDedup]
  exact mem_firstOccDedup a l.length l (Nat.le_refl _)

theorem nodup_uniqPreserveOrder (l : List String) :
    (uniqPreserveOrder l).Nodup := by
  rw [uniqPreserveOrder_eq_firstOccDedup]
  exact nodup_firstOccDedup l.length l (Nat.le_refl _)

theorem lookupAssoc_cons {α : Type} (k k' : String) (v : α)
    (l : List (String × α)) :
    lookupAssoc ((k, v) :: l) k' = if k = k' then some v else lookupAssoc l k' := rfl

/-- No success entry is cached under the given key (absent or disabled). -/
def noSuccessAt (cache : Cache) (k : String) : Prop :=
  ∀ r, lookupAssoc cache k = some r → r.reason ≠ none

/-- Every member of the list has an enabled cache entry whose own
required list stays inside the list: transitive closure at cache level. -/
def closedIn (cache : Cache) (l : List String) : Prop :=
  ∀ x ∈ l, ∃ rx, lookupAssoc cache x = some rx ∧ rx.reason = none ∧
    ∀ y ∈ rx.required, y ∈ l

/-- Invariant of a single cache entry: a success entry is keyed by the
head of its duplicate-free required list, is closed, and belongs to an
enabled registry component; a failure entry has an empty required list. -/
def entryOk (reg : List Component) (t : Target) (cache : Cache)
    (k : String) (r : Resolved) : Prop :=
  (r.reason = none →
    r.required.head? = some k ∧ r.required.Nodup ∧ closedIn cache r.required ∧
    ∃ c ∈ reg, c.id = k ∧ (c.isEnabled t).fst = true) ∧
  (r.reason ≠ none → r.required = [])

/-- Invariant of the whole resolver cache. -/
def cacheOk (reg : List Component) (t : Target) (cache : Cache) : Prop :=
  ∀ k r, lookupAssoc cache k = some r → entryOk reg t cache k r

/-- Success entries survive: the cache only ever overwrites failures. -/
def preservesSucc (c c' : Cache) : Prop :=
  ∀ k r, lookupAssoc c k = some r → r.reason = none → lookupAssoc c' k = some r

/-- Keys on the resolution stack never acquire a success entry. -/
def stackSafe (stack : List String) (c c' : Cache) : Prop :=
  ∀ k ∈ stack, noSuccessAt c k → noSuccessAt c' k

theorem preservesSucc_refl (c : Cache) : preservesSucc c c :=
  fun _ _ h _ => h

theorem preservesSucc_trans {a b c : Cache} (h1 : preservesSucc a b)
    (h2 : preservesSucc b c) : preservesSucc a c :=
  fun k r hk hr => h2 k r (h1 k r hk hr) hr

theorem stackSafe_refl (s : List String) (c : Cache) : stackSafe s c c :=
  fun _ _ h => h

theorem closedIn_mono {c c' : Cache} {l : List String}
    (hp : preservesSucc c c') (h : closedIn c l) : closedIn c' l := by
  intro x hx
  obtain ⟨rx, hrx, hre, hsub⟩ := h x hx
  exact ⟨rx, hp x rx hrx hre, hre, hsub⟩

/-- Inserting a failure entry at a key with no cached success preserves
the cache invariant. -/
theorem cacheOk_insert_fail {reg : List Component} {t : Target}
    {cache : Cache} {k : String} {reason : String}
    (hok : cacheOk reg t cache) (hns : noSuccessAt cache k) :
    cacheOk reg t (cacheInsert cache k { reason := some reason }) := by
  intro k' r' hl
  rw [cacheInsert, lookupAssoc_cons] at hl
  by_cases hk : k = k'
  · subst hk
    rw [if_pos rfl] at hl
    cases hl
    constructor
    · intro h; simp at h
    · intro _; rfl
  · rw [if_neg hk] at hl
    have he := hok k' r' hl
    constructor
    · intro hre
      obtain ⟨hhead, hnd, hcl, hcomp⟩ := he.1 hre
      refine ⟨hhead, hnd, ?_, hcomp⟩
      intro x hx
      obtain ⟨rx, hrx, hxe, hsub⟩ := hcl x hx
      refine ⟨rx, ?_, hxe, hsub⟩
      rw [cacheInsert, lookupAssoc_cons]
      by_cases hxk : k = x
      · subst hxk
        exact absurd hxe (hns rx hrx)
      · rw [if_neg hxk]; exact hrx
    · exact he.2

theorem preservesSucc_insert_fail {cache : Cache} {k : String}
    {reason : String} (hns : noSuccessAt cache k) :
    preservesSucc cache (cacheInsert cache k { reason := some reason }) := by
  intro k' r' hl hre
  rw [cacheInsert, lookupAssoc_cons]
  by_cases hk : k = k'
  · subst hk
    exact absurd hre (hns r' hl)
  · rw [if_neg hk]; exact hl

theorem noSuccessAt_insert_fail {cache : Cache} {k k' : String}
    {reason : String} (h : noSuccessAt cache k') :
    noSuccessAt (cacheInsert cache k { reason := some reason }) k' := by
  intro r hl
  rw [cacheInsert, lookupAssoc_cons] at hl
  by_cases hk : k = k'
  · subst hk
    rw [if_pos rfl] at hl
    cases hl
    simp
  · rw [if_neg hk] at hl
    exact h r hl

/-- Inserting a success entry at a key with no cached success preserves
the invariant, provided the new entry itself satisfies it. -/
theorem cacheOk_insert_succ {reg : List Component} {t : Target}
    {cache : Cache} {k : String} {r : Resolved}
    (hok : cacheOk reg t cache) (hns : noSuccessAt cache k)
    (hnew : entryOk reg t (cacheInsert cache k r) k r) :
    cacheOk reg t (cacheInsert cache k r) := by
  intro k' r' hl
  rw [cacheInsert, lookupAssoc_cons] at hl
  by_cases hk : k = k'
  · subst hk
    rw [if_pos rfl] at hl
    cases hl
    exact hnew
  · rw [if_neg hk] at hl
    have he := hok k' r' hl
    constructor
    · intro hre
      obtain ⟨hhead, hnd, hcl, hcomp⟩ := he.1 hre
      refine ⟨hhead, hnd, ?_, hcomp⟩
      intro x hx
      obtain ⟨rx, hrx, hxe, hsub⟩ := hcl x hx
      refine ⟨rx, ?_, hxe, hsub⟩
      rw [cacheInsert, lookupAssoc_cons]
      by_cases hxk : k = x
      · subst hxk
        exact absurd hxe (hns rx hrx)
      · rw [if_neg hxk]; exact hrx
    · exact he.2

theorem preservesSucc_insert {cache : Cache} {k : String} {r : Resolved}
    (hns : noSuccessAt cache k) :
    preservesSucc cache (cacheInsert cache k r) := by
  intro k' r' hl hre
  rw [cacheInsert, lookupAssoc_cons]
  by_cases hk : k = k'
  · subst hk
    exact absurd hre (hns r' hl)
  · rw [if_neg hk]; exact hl

theorem lookupComp_mem :
    ∀ (reg : List Component) (i : String) (c : Component),
      lookupComp reg i = some c → c ∈ reg ∧ c.id = i := by
  intro reg
  induction reg with
  | nil => intro i c h; simp [lookupComp] at h
  | cons x xs ih =>
    intro i c h
    rw [lookupComp] at h
    by_cases hx : x.id = i
    · rw [if_pos hx] at h
      cases h
      exact ⟨List.mem_cons_self _ _, hx⟩
    · rw [if_neg hx] at h
      obtain ⟨hm, hi⟩ := ih i c h
      exact ⟨List.mem_cons_of_mem _ hm, hi⟩

theorem mappingsFor_eq_routed {reg : List Component} {t : Target}
    {spec v : String} (hr : lookupAssoc t.routing spec = some v) :
    mappingsFor reg t spec
      = match lookupComp reg v with
        | some c => [c]
        | none => [] := by
  unfold mappingsFor
  rw [hr]

theorem mappingsFor_eq_routed_found {reg : List Component} {t : Target}
    {spec v : String} {c : Component}
    (hr : lookupAssoc t.routing spec = some v)
    (hl : lookupComp reg v = some c) :
    mappingsFor reg t spec = [c] := by
  rw [mappingsFor_eq_routed hr, hl]

theorem mappingsFor_eq_routed_missing {reg : List Component} {t : Target}
    {spec v : String}
    (hr : lookupAssoc t.routing spec = some v)
    (hl : lookupComp reg v = none) :
    mappingsFor reg t spec = [] := by
  rw [mappingsFor_eq_routed hr, hl]

theorem mappingsFor_eq_bake {reg : List Component} {t : Target}
    {spec : String} (hr : lookupAssoc t.routing spec = none) :
    mappingsFor reg t spec = (reg.map (bakeOne spec)).flatten := by
  unfold mappingsFor
  rw [hr]

theorem mappingsFor_mem {reg : List Component} {t : Target} {spec : String}
    {c : Component} (h : c ∈ mappingsFor reg t spec) : c ∈ reg := by
  cases hr : lookupAssoc t.routing spec with
  | none =>
    rw [mappingsFor_eq_bake hr] at h
    rw [List.mem_flatten] at h
    obtain ⟨l, hl, hcl⟩ := h
    rw [List.mem_map] at hl
    obtain ⟨c2, hc2, rfl⟩ := hl
    rw [bakeOne, List.mem_map] at hcl
    obtain ⟨_, _, rfl⟩ := hcl
    exact hc2
  | some v =>
    cases hl : lookupComp reg v with
    | none =>
      rw [mappingsFor_eq_routed_missing hr hl] at h
      simp at h
    | some c2 =>
      rw [mappingsFor_eq_routed_found hr hl] at h
      rw [List.mem_singleton] at h
      subst h
      exact (lookupComp_mem reg v _ hl).1

theorem filter_eq_singleton_mem {l : List Component} {p : Component → Bool}
    {c : Component} (h : l.filter p = [c]) : c ∈ l ∧ p c = true := by
  have hc : c ∈ l.filter p := by rw [h]; exact List.mem_singleton_self c
  exact ⟨(List.mem_filter.mp hc).1, (List.mem_filter.mp hc).2⟩

theorem providerPost_eq_nil {t : Target} {spec : String}
    {result : List Component}
    (hf : result.filter (fun c => (c.isEnabled t).fst) = []) :
    providerPost t spec result = (none, "No provider for '" ++ spec ++ "'") := by
  unfold providerPost
  rw [hf]

theorem providerPost_eq_single {t : Target} {spec : String}
    {result : List Component} {c : Component}
    (hf : result.filter (fun c => (c.isEnabled t).fst) = [c]) :
    providerPost t spec result = (some c.id, "") := by
  unfold providerPost
  rw [hf]

theorem providerPost_eq_multi {t : Target} {spec : String}
    {result : List Component} {d1 d2 : Component} {ds : List Component}
    (hf : result.filter (fun c => (c.isEnabled t).fst) = d1 :: d2 :: ds) :
    providerPost t spec result
      = (none, "Multiple providers for '" ++ spec ++ "': "
          ++ String.intercalate "," ((d1 :: d2 :: ds).map Component.id)) := by
  unfold providerPost
  rw [hf]

theorem provider_eq_nil {reg : List Component} {t : Target} {spec : String}
    (hm : mappingsFor reg t spec = []) :
    provider reg t spec = providerPost t spec [] := by
  unfold provider
  rw [hm]

theorem provider_eq_single {reg : List Component} {t : Target} {spec : String}
    {c : Component} (hm : mappingsFor reg t spec = [c]) :
    provider reg t spec
      = if (c.isEnabled t).fst then providerPost t spec [c]
        else (none, (c.isEnabled t).snd) := by
  unfold provider
  rw [hm]

theorem provider_eq_multi {reg : List Component} {t : Target} {spec : String}
    {c1 c2 : Component} {cs : List Component}
    (hm : mappingsFor reg t spec = c1 :: c2 :: cs) :
    provider reg t spec = providerPost t spec (c1 :: c2 :: cs) := by
  unfold provider
  rw [hm]

theorem providerPost_some {t : Target} {spec : String}
    {result : List Component} {k e : String}
    (h : providerPost t spec result = (some k, e)) :
    ∃ c, result.filter (fun c => (c.isEnabled t).fst) = [c] ∧ c.id = k := by
  cases hf : result.filter (fun c => (c.isEnabled t).fst) with
  | nil => rw [providerPost_eq_nil hf] at h; simp at h
  | cons c cs =>
    cases cs with
    | nil =>
      rw [providerPost_eq_single hf] at h
      simp only [Prod.mk.injEq, Option.some.injEq] at h
      exact ⟨c, rfl, h.1⟩
    | cons c2 cs2 => rw [providerPost_eq_multi hf] at h; simp at h

theorem provider_some_spec {reg : List Component} {t : Target}
    {spec k e : String} (h : provider reg t spec = (some k, e)) :
    ∃ c, c ∈ mappingsFor reg t spec ∧ c.id = k ∧ (c.isEnabled t).fst = true ∧
      (mappingsFor reg t spec).filter (fun c => (c.isEnabled t).fst) = [c] := by
  have hpost :
      ∀ result : List Component, providerPost t spec result = (some k, e) →
        result = mappingsFor reg t spec →
        ∃ c, c ∈ mappingsFor reg t spec ∧ c.id = k ∧ (c.isEnabled t).fst = true ∧
          (mappingsFor reg t spec).filter (fun c => (c.isEnabled t).fst) = [c] := by
    intro result hr hres
    obtain ⟨c, hf, hk⟩ := providerPost_some hr
    obtain ⟨hmem, hen⟩ := filter_eq_singleton_mem hf
    subst hres
    exact ⟨c, hmem, hk, hen, hf⟩
  cases hm : mappingsFor reg t spec with
  | nil =>
    rw [provider_eq_nil hm] at h
    have := providerPost_some h
    obtain ⟨c, hf, _⟩ := this
    simp at hf
  | cons c1 cs =>
    cases cs with
    | nil =>
      rw [provider_eq_single hm] at h
      by_cases he : (c1.isEnabled t).fst = true
      · rw [if_pos he] at h
        obtain ⟨c, hf, hk⟩ := providerPost_some h
        obtain ⟨hmem, hen⟩ := filter_eq_singleton_mem hf
        exact ⟨c, hmem, hk, hen, hf⟩
      · rw [if_neg he] at h
        simp at h
    | cons c2 cs2 =>
      rw [provider_eq_multi hm] at h
      obtain ⟨c, hf, hk⟩ := providerPost_some h
      obtain ⟨hmem, hen⟩ := filter_eq_singleton_mem hf
      exact ⟨c, hmem, hk, hen, hf⟩

theorem provider_single_disabled {reg : List Component} {t : Target}
    {spec : String} {c : Component}
    (hm : mappingsFor reg t spec = [c])
    (he : (c.isEnabled t).fst = false) :
    provider reg t spec = (none, (c.isEnabled t).snd) := by
  rw [provider_eq_single hm, if_neg (by rw [he]; exact Bool.false_ne_true)]

theorem provider_no_provider {reg : List Component} {t : Target}
    {spec : String}
    (hf : (mappingsFor reg t spec).filter (fun c => (c.isEnabled t).fst) = [])
    (hshape : mappingsFor reg t spec = [] ∨ 2 ≤ (mappingsFor reg t spec).length) :
    provider reg t spec = (none, "No provider for '" ++ spec ++ "'") := by
  cases hm : mappingsFor reg t spec with
  | nil =>
    rw [provider_eq_nil hm, providerPost_eq_nil]
    simp
  | cons c1 cs =>
    cases cs with
    | nil =>
      exfalso
      rw [hm] at hshape
      rcases hshape with h1 | h2
      · exact absurd h1 (by simp)
      · simp at h2
    | cons c2 cs2 =>
      rw [provider_eq_multi hm, providerPost_eq_nil]
      rw [hm] at hf
      exact hf

theorem provider_multiple {reg : List Component} {t : Target} {spec : String}
    (hf : 2 ≤ ((mappingsFor reg t spec).filter (fun c => (c.isEnabled t).fst)).length) :
    provider reg t spec
      = (none, "Multiple providers for '" ++ spec ++ "': "
          ++ String.intercalate ","
            (((mappingsFor reg t spec).filter (fun c => (c.isEnabled t).fst)).map
              Component.id)) := by
  cases hff : (mappingsFor reg t spec).filter (fun c => (c.isEnabled t).fst) with
  | nil => rw [hff] at hf; simp at hf
  | cons d ds =>
    cases ds with
    | nil => rw [hff] at hf; simp at hf
    | cons d2 ds2 =>
      cases hm : mappingsFor reg t spec with
      | nil =>
        exfalso
        rw [hm] at hff
        simp at hff
      | cons c1 cs =>
        cases cs with
        | nil =>
          exfalso
          rw [hm] at hff
          have hle := List.length_filter_le (fun c => (c.isEnabled t).fst) [c1]
          rw [hff] at hle
          simp at hle
        | cons c2 cs2 =>
          rw [hm] at hff
          rw [provider_eq_multi hm, providerPost_eq_multi hff]

theorem resolveMany_nil {ro : String → List String → Cache → Except String (Resolved × Cache)}
    {stack : List String} {cache : Cache} :
    resolveMany ro [] stack cache = .ok (.success [] cache) := rfl

theorem resolveMany_cons_error
    {ro : String → List String → Cache → Except String (Resolved × Cache)}
    {req : String} {rest stack : List String} {cache : Cache} {e : String}
    (h : ro req stack cache = .error e) :
    resolveMany ro (req :: rest) stack cache = .error e := by
  simp only [resolveMany, h]

theorem resolveMany_cons_failed
    {ro : String → List String → Cache → Except String (Resolved × Cache)}
    {req : String} {rest stack : List String} {cache cache1 : Cache}
    {r : Resolved} {reason : String}
    (h : ro req stack cache = .ok (r, cache1)) (hr : r.reason = some reason) :
    resolveMany ro (req :: rest) stack cache = .ok (.failed reason cache1) := by
  simp only [resolveMany, h, hr]

theorem resolveMany_cons_rec_error
    {ro : String → List String → Cache → Except String (Resolved × Cache)}
    {req : String} {rest stack : List String} {cache cache1 : Cache}
    {r : Resolved} {e : String}
    (h : ro req stack cache = .ok (r, cache1)) (hr : r.reason = none)
    (h2 : resolveMany ro rest stack cache1 = .error e) :
    resolveMany ro (req :: rest) stack cache = .error e := by
  simp only [resolveMany, h, hr, h2]

theorem resolveMany_cons_rec_failed
    {ro : String → List String → Cache → Except String (Resolved × Cache)}
    {req : String} {rest stack : List String} {cache cache1 cache2 : Cache}
    {r : Resolved} {reason : String}
    (h : ro req stack cache = .ok (r, cache1)) (hr : r.reason = none)
    (h2 : resolveMany ro rest stack cache1 = .ok (.failed reason cache2)) :
    resolveMany ro (req :: rest) stack cache = .ok (.failed reason cache2) := by
  simp only [resolveMany, h, hr, h2]

theorem resolveMany_cons_rec_success
    {ro : String → List String → Cache → Except String (Resolved × Cache)}
    {req : String} {rest stack : List String} {cache cache1 cache2 : Cache}
    {r : Resolved} {flat : List String}
    (h : ro req stack cache = .ok (r, cache1)) (hr : r.reason = none)
    (h2 : resolveMany ro rest stack cache1 = .ok (.success flat cache2)) :
    resolveMany ro (req :: rest) stack cache
      = .ok (.success (r.required ++ flat) cache2) := by
  simp only [resolveMany, h, hr, h2]

theorem resolveF_step_hit {reg : List Component} {t : Target} {fuel : Nat}
    {what : String} {stack : List String} {cache : Cache} {r : Resolved}
    (h1 : lookupAssoc cache what = some r) :
    resolveF reg t (fuel + 1) what stack cache = .ok (r, cache) := by
  simp only [resolveF, h1]

theorem resolveF_step_provider_fail {reg : List Component} {t : Target}
    {fuel : Nat} {what : String} {stack : List String} {cache : Cache}
    {u : String}
    (h1 : lookupAssoc cache what = none)
    (h2 : provider reg t what = (none, u)) :
    resolveF reg t (fuel + 1) what stack cache
      = .ok ({ reason := some u }, cacheInsert cache what { reason := some u }) := by
  simp only [resolveF, h1, h2]

theorem resolveF_step_keep_hit {reg : List Component} {t : Target}
    {fuel : Nat} {what keep e : String} {stack : List String} {cache : Cache}
    {r : Resolved}
    (h1 : lookupAssoc cache what = none)
    (h2 : provider reg t what = (some keep, e))
    (h3 : lookupAssoc cache keep = some r) :
    resolveF reg t (fuel + 1) what stack cache = .ok (r, cache) := by
  simp only [resolveF, h1, h2, h3]

theorem resolveF_step_loop {reg : List Component} {t : Target}
    {fuel : Nat} {what keep e : String} {stack : List String} {cache : Cache}
    (h1 : lookupAssoc cache what = none)
    (h2 : provider reg t what = (some keep, e))
    (h3 : lookupAssoc cache keep = none)
    (h4 : keep ∈ stack) :
    resolveF reg t (fuel + 1) what stack cache
      = .error ("Dependency loop while resolving '" ++ what ++ "': "
          ++ pyListRepr stack ++ " -> " ++ keep) := by
  simp only [resolveF, h1, h2, h3]
  rw [if_pos h4]

theorem resolveF_step_nocomp {reg : List Component} {t : Target}
    {fuel : Nat} {what keep e : String} {stack : List String} {cache : Cache}
    (h1 : lookupAssoc cache what = none)
    (h2 : provider reg t what = (some keep, e))
    (h3 : lookupAssoc cache keep = none)
    (h4 : keep ∉ stack)
    (h5 : lookupComp reg keep = none) :
    resolveF reg t (fuel + 1) what stack cache
      = .ok ({ reason := some ("No provider for '" ++ keep ++ "'") }, cache) := by
  simp only [resolveF, h1, h2, h3]
  rw [if_neg h4, h5]

theorem resolveF_step_req_fail {reg : List Component} {t : Target}
    {fuel : Nat} {what keep e reason : String} {stack : List String}
    {cache cache1 : Cache} {comp : Component}
    (h1 : lookupAssoc cache what = none)
    (h2 : provider reg t what = (some keep, e))
    (h3 : lookupAssoc cache keep = none)
    (h4 : keep ∉ stack)
    (h5 : lookupComp reg keep = some comp)
    (h6 : resolveMany (resolveF reg t fuel) comp.requires (stack ++ [keep]) cache
        = .ok (.failed reason cache1)) :
    resolveF reg t (fuel + 1) what stack cache
      = .ok ({ reason := some reason },
          cacheInsert cache1 keep { reason := some reason }) := by
  simp only [resolveF, h1, h2, h3]
  rw [if_neg h4]
  simp only [h5, h6]

theorem resolveF_step_success {reg : List Component} {t : Target}
    {fuel : Nat} {what keep e : String} {stack : List String}
    {cache cache1 : Cache} {comp : Component} {flat : List String}
    (h1 : lookupAssoc cache what = none)
    (h2 : provider reg t what = (some keep, e))
    (h3 : lookupAssoc cache keep = none)
    (h4 : keep ∉ stack)
    (h5 : lookupComp reg keep = some comp)
    (h6 : resolveMany (resolveF reg t fuel) comp.requires (stack ++ [keep]) cache
        = .ok (.success flat cache1)) :
    resolveF reg t (fuel + 1) what stack cache
      = .ok ({ required := uniqPreserveOrder (keep :: flat) },
          cacheInsert cache1 keep { required := uniqPreserveOrder (keep :: flat) }) := by
  simp only [resolveF, h1, h2, h3]
  rw [if_neg h4]
  simp only [h5, h6]

theorem resolveF_step_req_error {reg : List Component} {t : Target}
    {fuel : Nat} {what keep e err : String} {stack : List String}
    {cache : Cache} {comp : Component}
    (h1 : lookupAssoc cache what = none)
    (h2 : provider reg t what = (some keep, e))
    (h3 : lookupAssoc cache keep = none)
    (h4 : keep ∉ stack)
    (h5 : lookupComp reg keep = some comp)
    (h6 : resolveMany (resolveF reg t fuel) comp.requires (stack ++ [keep]) cache
        = .error err) :
    resolveF reg t (fuel + 1) what stack cache = .error err := by
  simp only [resolveF, h1, h2, h3]
  rw [if_neg h4]
  simp only [h5, h6]

/-- Bundle of facts established for every non-raising `resolveF` call:
the cache invariant is maintained, success entries are never lost, stack
keys never gain a success entry, a returned success is a cache entry
(under the resolved provider key, unless it came straight from the
cache), and a returned failure has an empty required list. -/
def resolveOut (reg : List Component) (t : Target) (what : String)
    (stack : List String) (cache : Cache) (r : Resolved) (cache' : Cache) :
    Prop :=
  cacheOk reg t cache' ∧ preservesSucc cache cache' ∧
  stackSafe stack cache cache' ∧
  (r.reason = none →
    lookupAssoc cache what = some r ∨
    ∃ k, (provider reg t what).fst = some k ∧ lookupAssoc cache' k = some r) ∧
  (r.reason ≠ none → r.required = [])

theorem resolveMany_ok {reg : List Component} {t : Target}
    (ro : String → List String → Cache → Except String (Resolved × Cache))
    (ih : ∀ req stack cache r cache', cacheOk reg t cache →
      ro req stack cache = .ok (r, cache') →
      resolveOut reg t req stack cache r cache') :
    ∀ (reqs stack : List String) (cache : Cache) (res : ReqsResult),
      cacheOk reg t cache →
      resolveMany ro reqs stack cache = .ok res →
      (∀ reason cache', res = .failed reason cache' →
        cacheOk reg t cache' ∧ preservesSucc cache cache' ∧
        stackSafe stack cache cache') ∧
      (∀ flat cache', res = .success flat cache' →
        cacheOk reg t cache' ∧ preservesSucc cache cache' ∧
        stackSafe stack cache cache' ∧ closedIn cache' flat) := by
  intro reqs
  induction reqs with
  | nil =>
    intro stack cache res hok hres
    rw [resolveMany_nil] at hres
    injection hres with hres
    constructor
    · intro reason cache' hcase
      rw [← hres] at hcase
      simp at hcase
    · intro flat cache' hcase
      rw [← hres] at hcase
      injection hcase with hflat hcache
      subst hflat
      subst hcache
      refine ⟨hok, preservesSucc_refl _, stackSafe_refl _ _, ?_⟩
      intro x hx
      simp at hx
  | cons req rest ihrest =>
    intro stack cache res hok hres
    cases hro : ro req stack cache with
    | error e =>
      rw [resolveMany_cons_error hro] at hres
      simp at hres
    | ok pr =>
      obtain ⟨r, cache1⟩ := pr
      obtain ⟨A1, B1, C1, D1, E1⟩ := ih req stack cache r cache1 hok hro
      cases hr : r.reason with
      | some reason =>
        rw [resolveMany_cons_failed hro hr] at hres
        injection hres with hres
        constructor
        · intro reason' cache' hcase
          rw [← hres] at hcase
          injection hcase with he1 he2
          subst he1
          subst he2
          exact ⟨A1, B1, C1⟩
        · intro flat cache' hcase
          rw [← hres] at hcase
          simp at hcase
      | none =>
        cases hrec : resolveMany ro rest stack cache1 with
        | error e =>
          rw [resolveMany_cons_rec_error hro hr hrec] at hres
          simp at hres
        | ok res2 =>
          have hrest := ihrest stack cache1 res2 A1 hrec
          cases res2 with
          | failed reason2 cache2 =>
            rw [resolveMany_cons_rec_failed hro hr hrec] at hres
            injection hres with hres
            obtain ⟨A2, B2, C2⟩ := hrest.1 reason2 cache2 rfl
            constructor
            · intro reason' cache' hcase
              rw [← hres] at hcase
              injection hcase with he1 he2
              subst he1
              subst he2
              refine ⟨A2, preservesSucc_trans B1 B2, ?_⟩
              intro k hk hns
              exact C2 k hk (C1 k hk hns)
            · intro flat cache' hcase
              rw [← hres] at hcase
              simp at hcase
          | success flat2 cache2 =>
            rw [resolveMany_cons_rec_success hro hr hrec] at hres
            injection hres with hres
            obtain ⟨A2, B2, C2, Hcl2⟩ := hrest.2 flat2 cache2 rfl
            constructor
            · intro reason' cache' hcase
              rw [← hres] at hcase
              simp at hcase
            · intro flat cache' hcase
              rw [← hres] at hcase
              injection hcase with he1 he2
              subst he1
              subst he2
              refine ⟨A2, preservesSucc_trans B1 B2, ?_, ?_⟩
              · intro k hk hns
                exact C2 k hk (C1 k hk hns)
              · have hkey : ∃ k, lookupAssoc cache1 k = some r := by
                  rcases D1 hr with hl | ⟨k, _, hk⟩
                  · exact ⟨req, B1 req r hl hr⟩
                  · exact ⟨k, hk⟩
                obtain ⟨k, hk⟩ := hkey
                have hclr : closedIn cache1 r.required := ((A1 k r hk).1 hr).2.2.1
                have hclr2 : closedIn cache2 r.required := closedIn_mono B2 hclr
                intro x hx
                rcases List.mem_append.mp hx with hx1 | hx2
                · obtain ⟨rx, hrx, hre, hsub⟩ := hclr2 x hx1
                  exact ⟨rx, hrx, hre,
                    fun y hy => List.mem_append.mpr (Or.inl (hsub y hy))⟩
                · obtain ⟨rx, hrx, hre, hsub⟩ := Hcl2 x hx2
                  exact ⟨rx, hrx, hre,
                    fun y hy => List.mem_append.mpr (Or.inr (hsub y hy))⟩

theorem resolveF_ok :
    ∀ (fuel : Nat) (reg : List Component) (t : Target) (what : String)
      (stack : List String) (cache : Cache) (r : Resolved) (cache' : Cache),
      cacheOk reg t cache →
      resolveF reg t fuel what stack cache = .ok (r, cache') →
      resolveOut reg t what stack cache r cache' := by
  intro fuel
  induction fuel with
  | zero =>
    intro reg t what stack cache r cache' _ hres
    simp [resolveF] at hres
  | succ fuel ih =>
    intro reg t what stack cache r cache' hok hres
    cases h1 : lookupAssoc cache what with
    | some r0 =>
      rw [resolveF_step_hit h1] at hres
      simp only [Except.ok.injEq, Prod.mk.injEq] at hres
      obtain ⟨hr, hc⟩ := hres
      subst hr
      subst hc
      refine ⟨hok, preservesSucc_refl _, stackSafe_refl _ _, ?_, ?_⟩
      · intro _
        exact Or.inl h1
      · exact (hok what r0 h1).2
    | none =>
      cases h2 : provider reg t what with
      | mk popt preason =>
        cases popt with
        | none =>
          rw [resolveF_step_provider_fail h1 h2] at hres
          simp only [Except.ok.injEq, Prod.mk.injEq] at hres
          obtain ⟨hr, hc⟩ := hres
          subst hr
          subst hc
          have hns : noSuccessAt cache what := by
            intro r0 h0
            rw [h1] at h0
            simp at h0
          refine ⟨cacheOk_insert_fail hok hns, preservesSucc_insert_fail hns,
            ?_, ?_, fun _ => rfl⟩
          · intro k _ hnsk
            exact noSuccessAt_insert_fail hnsk
          · intro hre
            simp at hre
        | some keep =>
          cases h3 : lookupAssoc cache keep with
          | some r0 =>
            rw [resolveF_step_keep_hit h1 h2 h3] at hres
            simp only [Except.ok.injEq, Prod.mk.injEq] at hres
            obtain ⟨hr, hc⟩ := hres
            subst hr
            subst hc
            refine ⟨hok, preservesSucc_refl _, stackSafe_refl _ _, ?_, ?_⟩
            · intro _
              refine Or.inr ⟨keep, ?_, h3⟩
              rw [h2]
            · exact (hok keep r0 h3).2
          | none =>
            by_cases h4 : keep ∈ stack
            · rw [resolveF_step_loop h1 h2 h3 h4] at hres
              simp at hres
            · cases h5 : lookupComp reg keep with
              | none =>
                rw [resolveF_step_nocomp h1 h2 h3 h4 h5] at hres
                simp only [Except.ok.injEq, Prod.mk.injEq] at hres
                obtain ⟨hr, hc⟩ := hres
                subst hr
                subst hc
                refine ⟨hok, preservesSucc_refl _, stackSafe_refl _ _, ?_,
                  fun _ => rfl⟩
                intro hre
                simp at hre
              | some comp =>
                have hnsk0 : noSuccessAt cache keep := by
                  intro r0 h0
                  rw [h3] at h0
                  simp at h0
                cases h6 : resolveMany (resolveF reg t fuel) comp.requires
                    (stack ++ [keep]) cache with
                | error err =>
                  rw [resolveF_step_req_error h1 h2 h3 h4 h5 h6] at hres
                  simp at hres
                | ok res2 =>
                  have hm := resolveMany_ok (resolveF reg t fuel)
                    (fun req st c rr cc hk hh => ih reg t req st c rr cc hk hh)
                    comp.requires (stack ++ [keep]) cache res2 hok h6
                  cases res2 with
                  | failed reason cache1 =>
                    rw [resolveF_step_req_fail h1 h2 h3 h4 h5 h6] at hres
                    simp only [Except.ok.injEq, Prod.mk.injEq] at hres
                    obtain ⟨hr, hc⟩ := hres
                    subst hr
                    subst hc
                    obtain ⟨A1, B1, C1⟩ := hm.1 reason cache1 rfl
                    have hnsk : noSuccessAt cache1 keep :=
                      C1 keep (by simp) hnsk0
                    refine ⟨cacheOk_insert_fail A1 hnsk,
                      preservesSucc_trans B1 (preservesSucc_insert_fail hnsk),
                      ?_, ?_, fun _ => rfl⟩
                    · intro k hk hns
                      exact noSuccessAt_insert_fail
                        (C1 k (List.mem_append.mpr (Or.inl hk)) hns)
                    · intro hre
                      simp at hre
                  | success flat cache1 =>
                    rw [resolveF_step_success h1 h2 h3 h4 h5 h6] at hres
                    simp only [Except.ok.injEq, Prod.mk.injEq] at hres
                    obtain ⟨hr, hc⟩ := hres
                    subst hr
                    subst hc
                    obtain ⟨A1, B1, C1, Hcl⟩ := hm.2 flat cache1 rfl
                    have hnsk : noSuccessAt cache1 keep :=
                      C1 keep (by simp) hnsk0
                    have hentry : entryOk reg t
                        (cacheInsert cache1 keep
                          { required := uniqPreserveOrder (keep :: flat) })
                        keep { required := uniqPreserveOrder (keep :: flat) } := by
                      constructor
                      · intro _
                        refine ⟨?_, nodup_uniqPreserveOrder _, ?_, ?_⟩
                        · obtain ⟨rest, hrest⟩ := uniqPreserveOrder_cons_head keep flat
                          show (uniqPreserveOrder (keep :: flat)).head? = some keep
                          rw [hrest]
                          rfl
                        · intro x hx
                          have hx' : x ∈ keep :: flat :=
                            (mem_uniqPreserveOrder x _).mp hx
                          by_cases hxk : x = keep
                          · subst hxk
                            refine ⟨{ required := uniqPreserveOrder (x :: flat) },
                              ?_, rfl, ?_⟩
                            · rw [cacheInsert, lookupAssoc_cons, if_pos rfl]
                            · intro y hy
                              exact hy
                          · have hxf : x ∈ flat := by
                              rcases List.mem_cons.mp hx' with h | h
                              · exact absurd h hxk
                              · exact h
                            obtain ⟨rx, hrx, hre, hsub⟩ := Hcl x hxf
                            refine ⟨rx, ?_, hre, ?_⟩
                            · rw [cacheInsert, lookupAssoc_cons,
                                if_neg (fun hh => hxk hh.symm)]
                              exact hrx
                            · intro y hy
                              exact (mem_uniqPreserveOrder y _).mpr
                                (List.mem_cons.mpr (Or.inr (hsub y hy)))
                        · obtain ⟨c, hcm, hcid, hce, _⟩ := provider_some_spec h2
                          exact ⟨c, mappingsFor_mem hcm, hcid, hce⟩
                      · intro hne
                        exact absurd rfl hne
                    refine ⟨cacheOk_insert_succ A1 hnsk hentry,
                      preservesSucc_trans B1 (preservesSucc_insert hnsk),
                      ?_, ?_, ?_⟩
                    · intro k hk hns
                      have hns1 := C1 k (List.mem_append.mpr (Or.inl hk)) hns
                      intro r0 h0
                      rw [cacheInsert, lookupAssoc_cons] at h0
                      by_cases hkk : keep = k
                      · subst hkk
                        exact absurd hk h4
                      · rw [if_neg hkk] at h0
                        exact hns1 r0 h0
                    · intro _
                      refine Or.inr ⟨keep, ?_, ?_⟩
                      · rw [h2]
                      · rw [cacheInsert, lookupAssoc_cons, if_pos rfl]
                    · intro hne
                      exact absurd rfl hne

theorem lookupAssoc_mem {α : Type} :
    ∀ (m : List (String × α)) (k : String) (v : α),
      lookupAssoc m k = some v → (k, v) ∈ m := by
  intro m
  induction m with
  | nil => intro k v h; simp [lookupAssoc] at h
  | cons p rest ih =>
    intro k v h
    obtain ⟨k', v'⟩ := p
    rw [lookupAssoc] at h
    by_cases hk : k' = k
    · subst hk
      rw [if_pos rfl] at h
      injection h with h
      subst h
      exact List.mem_cons_self _ _
    · rw [if_neg hk] at h
      exact List.mem_cons_of_mem _ (ih k v h)

/-- Fact recorded for each component's entry in the phase-1 result map:
a success value is a cache entry under the provider key chosen for the
component's id (or under the id itself on a cache hit), and a failure
value has an empty required list. -/
def entryFact (reg : List Component) (t : Target) (cacheF : Cache)
    (cid : String) (r : Resolved) : Prop :=
  (r.reason = none →
    ∃ k, lookupAssoc cacheF k = some r ∧
      (k = cid ∨ (provider reg t cid).fst = some k)) ∧
  (r.reason ≠ none → r.required = [])

theorem resolveAll_nil {reg : List Component} {t : Target} {fuel : Nat}
    {cache : Cache} :
    resolveAll reg t fuel [] cache = .ok ([], cache) := rfl

theorem resolveAll_cons_ok {reg : List Component} {t : Target} {fuel : Nat}
    {c : Component} {rest : List Component} {cache cache1 cache2 : Cache}
    {r : Resolved} {m2 : List (String × Resolved)}
    (h : resolveF reg t fuel c.id [] cache = .ok (r, cache1))
    (h2 : resolveAll reg t fuel rest cache1 = .ok (m2, cache2)) :
    resolveAll reg t fuel (c :: rest) cache = .ok ((c.id, r) :: m2, cache2) := by
  simp only [resolveAll, h, h2]

theorem resolveAll_ok {reg : List Component} {t : Target} {fuel : Nat} :
    ∀ (comps : List Component) (cache : Cache)
      (m : List (String × Resolved)) (cache' : Cache),
      cacheOk reg t cache →
      resolveAll reg t fuel comps cache = .ok (m, cache') →
      cacheOk reg t cache' ∧ preservesSucc cache cache' ∧
      (∀ p ∈ m, entryFact reg t cache' p.1 p.2) ∧
      m.map Prod.fst = comps.map Component.id := by
  intro comps
  induction comps with
  | nil =>
    intro cache m cache' hok hres
    rw [resolveAll_nil] at hres
    simp only [Except.ok.injEq, Prod.mk.injEq] at hres
    obtain ⟨hm, hc⟩ := hres
    subst hm
    subst hc
    refine ⟨hok, preservesSucc_refl _, ?_, rfl⟩
    intro p hp
    simp at hp
  | cons c rest ih =>
    intro cache m cache' hok hres
    cases hro : resolveF reg t fuel c.id [] cache with
    | error e =>
      simp [resolveAll, hro] at hres
    | ok pr =>
      obtain ⟨r, cache1⟩ := pr
      obtain ⟨A1, B1, _, D1, E1⟩ :=
        resolveF_ok fuel reg t c.id [] cache r cache1 hok hro
      cases hrec : resolveAll reg t fuel rest cache1 with
      | error e =>
        simp [resolveAll, hro, hrec] at hres
      | ok pr2 =>
        obtain ⟨m2, cache2⟩ := pr2
        rw [resolveAll_cons_ok hro hrec] at hres
        simp only [Except.ok.injEq, Prod.mk.injEq] at hres
        obtain ⟨hm, hc⟩ := hres
        subst hm
        subst hc
        obtain ⟨A2, B2, HF2, HK2⟩ := ih cache1 m2 cache2 A1 hrec
        refine ⟨A2, preservesSucc_trans B1 B2, ?_, ?_⟩
        · intro p hp
          rcases List.mem_cons.mp hp with hp1 | hp2
          · subst hp1
            constructor
            · intro hre
              rcases D1 hre with hl | ⟨k, hprov, hk⟩
              · exact ⟨c.id, B2 c.id r (B1 c.id r hl hre) hre, Or.inl rfl⟩
              · exact ⟨k, B2 k r hk hre, Or.inr hprov⟩
            · exact E1
          · exact HF2 p hp2
        · simp only [List.map_cons, HK2]

/-- Does one step of `applyInjects` for a component with no injects
leave the map unchanged. -/
theorem applyInjectsFor_nil {reg : List Component} {cid : String}
    {m : List (String × Resolved)} :
    applyInjectsFor reg cid [] m = m := rfl

theorem applyInjects_no_injects {reg : List Component} :
    ∀ (l : List Component) (m : List (String × Resolved)),
      (∀ c ∈ l, c.injects = []) →
      l.foldl (fun m c =>
        match lookupAssoc m c.id with
        | some r =>
          if r.reason = none then applyInjectsFor reg c.id c.injects m else m
        | none => m) m = m := by
  intro l
  induction l with
  | nil => intro m _; rfl
  | cons c rest ih =>
    intro m hinj
    rw [List.foldl_cons]
    have hstep :
        (match lookupAssoc m c.id with
          | some r =>
            if r.reason = none then applyInjectsFor reg c.id c.injects m else m
          | none => m) = m := by
      cases hl : lookupAssoc m c.id with
      | none => rfl
      | some r =>
        show (if r.reason = none then applyInjectsFor reg c.id c.injects m else m) = m
        by_cases hr : r.reason = none
        · rw [if_pos hr, hinj c (List.mem_cons_self _ _), applyInjectsFor_nil]
        · rw [if_neg hr]
    rw [hstep]
    exact ih m (fun c' hc' => hinj c' (List.mem_cons_of_mem _ hc'))

theorem applyInjects_empty {reg : List Component}
    {m : List (String × Resolved)} (h : ∀ c ∈ reg, c.injects = []) :
    applyInjects reg m = m :=
  applyInjects_no_injects reg m h

/-- Every required list recorded in the resolved map is duplicate-free. -/
def NodupMap (m : List (String × Resolved)) : Prop :=
  ∀ p ∈ m, (Prod.snd p).required.Nodup

theorem setResolved_mem {k : String} {r : Resolved} :
    ∀ (m : List (String × Resolved)) (p : String × Resolved),
      p ∈ setResolved m k r → p ∈ m ∨ p = (k, r) := by
  intro m
  induction m with
  | nil => intro p hp; simp [setResolved] at hp
  | cons q rest ih =>
    intro p hp
    obtain ⟨k', r'⟩ := q
    rw [setResolved] at hp
    by_cases hk : k' = k
    · rw [if_pos hk] at hp
      rcases List.mem_cons.mp hp with h | h
      · exact Or.inr h
      · exact Or.inl (List.mem_cons_of_mem _ h)
    · rw [if_neg hk] at hp
      rcases List.mem_cons.mp hp with h | h
      · exact Or.inl (by rw [h]; exact List.mem_cons_self _ _)
      · rcases ih p h with h2 | h2
        · exact Or.inl (List.mem_cons_of_mem _ h2)
        · exact Or.inr h2

theorem applyInjectsFor_nodup {reg : List Component} {cid : String} :
    ∀ (injects : List String) (m : List (String × Resolved)),
      NodupMap m → NodupMap (applyInjectsFor reg cid injects m) := by
  intro injects
  induction injects with
  | nil => intro m h; exact h
  | cons inj rest ih =>
    intro m h
    have hstep : NodupMap
        (match lookupCompProvides reg inj with
          | none => m
          | some victim =>
            match lookupAssoc m victim.id, lookupAssoc m cid with
            | some vr, some cr =>
              setResolved m victim.id
                { vr with
                  injected := vr.injected ++ [cid],
                  required := uniqPreserveOrder (cr.required ++ vr.required) }
            | _, _ => m) := by
      cases lookupCompProvides reg inj with
      | none => exact h
      | some victim =>
        show NodupMap
          (match lookupAssoc m victim.id, lookupAssoc m cid with
            | some vr, some cr =>
              setResolved m victim.id
                { vr with
                  injected := vr.injected ++ [cid],
                  required := uniqPreserveOrder (cr.required ++ vr.required) }
            | _, _ => m)
        cases hv : lookupAssoc m victim.id with
        | none => exact h
        | some vr =>
          cases hc : lookupAssoc m cid with
          | none => exact h
          | some cr =>
            show NodupMap
              (setResolved m victim.id
                { vr with
                  injected := vr.injected ++ [cid],
                  required := uniqPreserveOrder (cr.required ++ vr.required) })
            intro p hp
            rcases setResolved_mem m p hp with h1 | h1
            · exact h p h1
            · rw [h1]
              exact nodup_uniqPreserveOrder _
    exact ih _ hstep

theorem applyInjects_nodup {reg : List Component} :
    ∀ (l : List Component) (m : List (String × Resolved)),
      NodupMap m →
      NodupMap (l.foldl (fun m c =>
        match lookupAssoc m c.id with
        | some r =>
          if r.reason = none then applyInjectsFor reg c.id c.injects m else m
        | none => m) m) := by
  intro l
  induction l with
  | nil => intro m h; exact h
  | cons c rest ih =>
    intro m h
    rw [List.foldl_cons]
    have hstep : NodupMap
        (match lookupAssoc m c.id with
          | some r =>
            if r.reason = none then applyInjectsFor reg c.id c.injects m else m
          | none => m) := by
      cases lookupAssoc m c.id with
      | none => exact h
      | some r =>
        by_cases hr : r.reason = none
        · show NodupMap (if r.reason = none then
              applyInjectsFor reg c.id c.injects m else m)
          rw [if_pos hr]
          exact applyInjectsFor_nodup c.injects m h
        · show NodupMap (if r.reason = none then
              applyInjectsFor reg c.id c.injects m else m)
          rw [if_neg hr]
          exact h
    exact ih _ hstep

theorem cacheOk_nil (reg : List Component) (t : Target) :
    cacheOk reg t [] := by
  intro k r h
  simp [lookupAssoc] at h

theorem loadDependencies_ok {reg : List Component} {t : Target} {fuel : Nat}
    {m : List (String × Resolved)}
    (h : loadDependencies reg t fuel = .ok m) :
    ∃ m0 cacheF, resolveAll reg t fuel reg [] = .ok (m0, cacheF) ∧
      m = applyInjects reg m0 := by
  unfold loadDependencies at h
  cases hra : resolveAll reg t fuel reg [] with
  | error e =>
    rw [hra] at h
    simp at h
  | ok pr =>
    obtain ⟨m0, cacheF⟩ := pr
    rw [hra] at h
    simp only [Except.ok.injEq] at h
    exact ⟨m0, cacheF, rfl, h.symm⟩

theorem provider_id_self {reg : List Component} {t : Target} {x k : String}
    (hroute : t.routing = [])
    (hX : ∃ X ∈ reg, X.id = x ∧ (X.isEnabled t).fst = true)
    (hfst : (provider reg t x).fst = some k) : k = x := by
  obtain ⟨o, e, hpp⟩ : ∃ o e, provider reg t x = (o, e) :=
    ⟨(provider reg t x).fst, (provider reg t x).snd, rfl⟩
  have ho : o = some k := by rw [hpp] at hfst; exact hfst
  subst ho
  have hp : provider reg t x = (some k, e) := hpp
  obtain ⟨X, hXreg, hXid, hXen⟩ := hX
  obtain ⟨c, _, hcid, _, hfilter⟩ := provider_some_spec hp
  have hb : lookupAssoc t.routing x = none := by rw [hroute]; rfl
  have hXm : X ∈ mappingsFor reg t x := by
    rw [mappingsFor_eq_bake hb]
    rw [List.mem_flatten]
    refine ⟨bakeOne x X, List.mem_map.mpr ⟨X, hXreg, rfl⟩, ?_⟩
    rw [bakeOne]
    rw [List.mem_map]
    refine ⟨x, ?_, rfl⟩
    rw [List.mem_filter]
    constructor
    · rw [List.mem_append]
      right
      rw [List.mem_singleton]
      exact hXid.symm
    · simp
  have hXf : X ∈ (mappingsFor reg t x).filter (fun c => (c.isEnabled t).fst) :=
    List.mem_filter.mpr ⟨hXm, hXen⟩
  rw [hfilter] at hXf
  rw [List.mem_singleton] at hXf
  rw [← hcid, ← hXf, hXid]

theorem enabledCheck_true_iff (t : Target) :
    ∀ l : List (String × List PValue),
      (enabledCheck t l).fst = true ↔
        ∀ kv ∈ l, ∃ v, lookupAssoc t.props kv.fst = some v ∧
          kv.snd.any (fun x => v.pyEq x) = true := by
  intro l
  induction l with
  | nil => simp [enabledCheck]
  | cons kv rest ih =>
    obtain ⟨k, vs⟩ := kv
    cases hp : lookupAssoc t.props k with
    | none =>
      simp only [enabledCheck, hp]
      constructor
      · intro h
        simp at h
      · intro h
        obtain ⟨v, hv, _⟩ := h (k, vs) (List.mem_cons_self _ _)
        rw [hp] at hv
        simp at hv
    | some pv =>
      by_cases ha : vs.any (fun x => pv.pyEq x) = true
      · have hstep : enabledCheck t ((k, vs) :: rest) = enabledCheck t rest := by
          simp only [enabledCheck, hp]
          rw [if_pos ha]
        rw [hstep, ih]
        constructor
        · intro h kv2 hkv2
          rcases List.mem_cons.mp hkv2 with h2 | h2
          · subst h2
            exact ⟨pv, hp, ha⟩
          · exact h kv2 h2
        · intro h kv2 hkv2
          exact h kv2 (List.mem_cons_of_mem _ hkv2)
      · have hstep : (enabledCheck t ((k, vs) :: rest)).fst = false := by
          simp only [enabledCheck, hp]
          rw [if_neg ha]
        rw [hstep]
        constructor
        · intro h
          simp at h
        · intro h
          obtain ⟨v, hv, hany⟩ := h (k, vs) (List.mem_cons_self _ _)
          rw [hp] at hv
          injection hv with hv
          subst hv
          exact absurd hany ha

theorem enabledCheck_false_spec (t : Target) :
    ∀ (l : List (String × List PValue)) (r : String),
      enabledCheck t l = (false, r) →
      ∃ pre k vs rest, l = pre ++ (k, vs) :: rest ∧
        (∀ kv ∈ pre, ∃ v, lookupAssoc t.props kv.fst = some v ∧
          kv.snd.any (fun x => v.pyEq x) = true) ∧
        ((lookupAssoc t.props k = none ∧
            r = "Missing props '" ++ k ++ "' in target") ∨
          (∃ v, lookupAssoc t.props k = some v ∧
            vs.any (fun x => v.pyEq x) = false ∧
            r = "Props missmatch for '" ++ k ++ "': Got '" ++ v.pyStr
              ++ "' but expected "
              ++ String.intercalate ", "
                (vs.map (fun x => "'" ++ x.pyStr ++ "'")))) := by
  intro l
  induction l with
  | nil =>
    intro r h
    rw [enabledCheck] at h
    simp at h
  | cons kv rest ih =>
    obtain ⟨k, vs⟩ := kv
    intro r h
    cases hp : lookupAssoc t.props k with
    | none =>
      simp only [enabledCheck, hp] at h
      injection h with _ hr
      refine ⟨[], k, vs, rest, rfl, ?_, Or.inl ⟨hp, hr.symm⟩⟩
      intro kv2 hkv2
      simp at hkv2
    | some pv =>
      by_cases ha : vs.any (fun x => pv.pyEq x) = true
      · have hstep : enabledCheck t ((k, vs) :: rest) = enabledCheck t rest := by
          simp only [enabledCheck, hp]
          rw [if_pos ha]
        rw [hstep] at h
        obtain ⟨pre, k2, vs2, rest2, hsplit, hpre, hcase⟩ := ih r h
        refine ⟨(k, vs) :: pre, k2, vs2, rest2, ?_, ?_, hcase⟩
        · rw [hsplit]
          rfl
        · intro kv2 hkv2
          rcases List.mem_cons.mp hkv2 with h2 | h2
          · subst h2
            exact ⟨pv, hp, ha⟩
          · exact hpre kv2 h2
      · have hstep : enabledCheck t ((k, vs) :: rest)
            = (false, "Props missmatch for '" ++ k ++ "': Got '" ++ pv.pyStr
                ++ "' but expected "
                ++ String.intercalate ", "
                  (vs.map (fun x => "'" ++ x.pyStr ++ "'"))) := by
          simp only [enabledCheck, hp]
          rw [if_neg ha]
        rw [hstep] at h
        injection h with _ hr
        refine ⟨[], k, vs, rest, rfl, ?_, Or.inr ⟨pv, hp, ?_, hr.symm⟩⟩
        · intro kv2 hkv2
          simp at hkv2
        · exact Bool.not_eq_true _ ▸ (Bool.of_not_eq_true ha)

theorem strLeChars_cons_iff (c d : Char) (cs ds : List Char) :
    strLeChars (c :: cs) (d :: ds) = true ↔
      c.toNat < d.toNat ∨ (c.toNat = d.toNat ∧ strLeChars cs ds = true) := by
  rw [strLeChars]
  by_cases h1 : c.toNat < d.toNat
  · rw [if_pos h1]
    simp [h1]
  · rw [if_neg h1]
    by_cases h2 : d.toNat < c.toNat
    · rw [if_pos h2]
      constructor
      · intro h
        simp at h
      · intro h
        rcases h with h | ⟨h, _⟩
        · exact absurd h h1
        · omega
    · rw [if_neg h2]
      have heq : c.toNat = d.toNat := by omega
      simp [h1, heq]

theorem strLeChars_total :
    ∀ l1 l2 : List Char, strLeChars l1 l2 = true ∨ strLeChars l2 l1 = true := by
  intro l1
  induction l1 with
  | nil => intro l2; left; rfl
  | cons c cs ih =>
    intro l2
    cases l2 with
    | nil => right; rfl
    | cons d ds =>
      by_cases h1 : c.toNat < d.toNat
      · left
        rw [strLeChars_cons_iff]
        exact Or.inl h1
      · by_cases h2 : d.toNat < c.toNat
        · right
          rw [strLeChars_cons_iff]
          exact Or.inl h2
        · have heq : c.toNat = d.toNat := by omega
          rcases ih ds with h | h
          · left
            rw [strLeChars_cons_iff]
            exact Or.inr ⟨heq, h⟩
          · right
            rw [strLeChars_cons_iff]
            exact Or.inr ⟨heq.symm, h⟩

theorem strLeChars_trans :
    ∀ l1 l2 l3 : List Char, strLeChars l1 l2 = true →
      strLeChars l2 l3 = true → strLeChars l1 l3 = true := by
  intro l1
  induction l1 with
  | nil => intro l2 l3 _ _; rfl
  | cons c cs ih =>
    intro l2 l3 h12 h23
    cases l2 with
    | nil => rw [strLeChars] at h12; simp at h12
    | cons d ds =>
      cases l3 with
      | nil => rw [strLeChars] at h23; simp at h23
      | cons e es =>
        rw [strLeChars_cons_iff] at h12 h23 ⊢
        rcases h12 with h12 | ⟨h12, h12r⟩
        · rcases h23 with h23 | ⟨h23, _⟩
          · exact Or.inl (by omega)
          · exact Or.inl (by omega)
        · rcases h23 with h23 | ⟨h23, h23r⟩
          · exact Or.inl (by omega)
          · exact Or.inr ⟨by omega, ih ds es h12r h23r⟩

theorem strLe_total (a b : String) : strLe a b = true ∨ strLe b a = true :=
  strLeChars_total a.toList b.toList

theorem strLe_trans {a b c : String} (h1 : strLe a b = true)
    (h2 : strLe b c = true) : strLe a c = true :=
  strLeChars_trans a.toList b.toList c.toList h1 h2

theorem mem_insertSorted (a x : String) :
    ∀ l : List String, a ∈ insertSorted x l ↔ a = x ∨ a ∈ l := by
  intro l
  induction l with
  | nil => simp [insertSorted]
  | cons y ys ih =>
    rw [insertSorted]
    by_cases h : strLe x y = true
    · rw [if_pos h]
      simp
    · rw [if_neg h]
      simp only [List.mem_cons, ih]
      constructor
      · intro hh
        rcases hh with hh | hh | hh
        · exact Or.inr (Or.inl hh)
        · exact Or.inl hh
        · exact Or.inr (Or.inr hh)
      · intro hh
        rcases hh with hh | hh | hh
        · exact Or.inr (Or.inl hh)
        · exact Or.inl hh
        · exact Or.inr (Or.inr hh)

/-- Sortedness with respect to the Python string order. -/
def SortedStr (l : List String) : Prop :=
  l.Pairwise (fun a b => strLe a b = true)

theorem insertSorted_sorted (x : String) :
    ∀ l : List String, SortedStr l → SortedStr (insertSorted x l) := by
  intro l
  induction l with
  | nil =>
    intro _
    exact List.pairwise_singleton _ _
  | cons y ys ih =>
    intro hs
    obtain ⟨hy, hys⟩ := List.pairwise_cons.mp hs
    rw [insertSorted]
    by_cases h : strLe x y = true
    · rw [if_pos h]
      refine List.pairwise_cons.mpr ⟨?_, hs⟩
      intro b hb
      rcases List.mem_cons.mp hb with hb | hb
      · rw [hb]; exact h
      · exact strLe_trans h (hy b hb)
    · rw [if_neg h]
      refine List.pairwise_cons.mpr ⟨?_, ih hys⟩
      intro b hb
      rcases (mem_insertSorted b x ys).mp hb with hb | hb
      · rw [hb]
        rcases strLe_total x y with ht | ht
        · exact absurd ht h
        · exact ht
      · exact hy b hb

theorem sortStrings_sorted (l : List String) : SortedStr (sortStrings l) := by
  induction l with
  | nil => exact List.Pairwise.nil
  | cons x xs ih => exact insertSorted_sorted x _ ih

theorem mem_sortStrings (a : String) :
    ∀ l : List String, a ∈ sortStrings l ↔ a ∈ l := by
  intro l
  induction l with
  | nil => simp [sortStrings]
  | cons x xs ih =>
    show a ∈ insertSorted x (sortStrings xs) ↔ a ∈ x :: xs
    rw [mem_insertSorted, ih]
    simp

theorem mem_computeCdef (a : String) (props : Props) :
    a ∈ computeCdef props ↔ ∃ kv ∈ props, a ∈ cdefEmit kv.fst kv.snd := by
  rw [computeCdef, mem_sortStrings, mem_uniqPreserveOrder]
  rw [List.mem_flatten]
  constructor
  · intro ⟨l, hl, hal⟩
    rw [List.mem_map] at hl
    obtain ⟨kv, hkv, rfl⟩ := hl
    exact ⟨kv, hkv, hal⟩
  · intro ⟨kv, hkv, hal⟩
    exact ⟨cdefEmit kv.fst kv.snd, List.mem_map.mpr ⟨kv, hkv, rfl⟩, hal⟩

theorem takeToClose_none :
    ∀ l : List Char, '\x7d' ∉ l → takeToClose l = none := by
  intro l
  induction l with
  | nil => intro _; rfl
  | cons c rest ih =>
    intro h
    rw [takeToClose]
    have hc : ¬c = '\x7d' := fun hh => h (by rw [hh]; exact List.mem_cons_self _ _)
    rw [if_neg hc, ih (fun hh => h (List.mem_cons_of_mem _ hh))]
    rfl

theorem findBraceExpr_none :
    ∀ l : List Char, '\x7d' ∉ l → findBraceExpr l = none := by
  intro l
  induction l with
  | nil => intro _; rfl
  | cons c rest ih =>
    intro h
    rw [findBraceExpr]
    have hrest : '\x7d' ∉ rest := fun hh => h (List.mem_cons_of_mem _ hh)
    by_cases hc : c = '\x7b'
    · rw [if_pos hc, takeToClose_none rest hrest]
    · rw [if_neg hc, ih hrest]
      rfl

theorem evalStrLoop_passthrough
    (ev : List Char → Except String (List Char)) (fuel : Nat)
    (l : List Char) (h : '\x7d' ∉ l) :
    evalStrLoop ev (fuel + 1) l = .ok l := by
  rw [evalStrLoop, findBraceExpr_none l h]

end Cutekit

namespace Cutekit

/-- C1: for a registry containing {myapp requires [mylib], mylib requires
[myembed], myimpl provides [myembed]} and a target for which all three
components are enabled, resolving "myapp" returns a Resolved with no
reason whose required list is exactly ["myapp", "mylib", "myimpl"]: the
provider myimpl is selected for the spec myembed via its provides list. -/
theorem spec_c1_indirect_provides :
    runResolve
      [{ id := "myapp", requires := ["mylib"] },
       { id := "mylib", requires := ["myembed"] },
       { id := "myimpl", provides := ["myembed"] }]
      { id := "host" } 10 "myapp"
      = some { reason := none, required := ["myapp", "mylib", "myimpl"],
               injected := [] }
    ∧ ([{ id := "myapp", requires := ["mylib"] },
        { id := "mylib", requires := ["myembed"] },
        { id := "myimpl", provides := ["myembed"] }] : List Component).all
        (fun c => (c.isEnabled { id := "host" }).fst) = true := by
  decide

/-- C2 (amended): after registry load, every component entry's required
list contains no duplicates; the component's own id sits at position 0
provided no component declares injects and the resolver's selected
provider for the component's own id is the component itself. -/
theorem spec_c2_required_head_nodup
    (reg : List Component) (t : Target) (fuel : Nat)
    (m : List (String × Resolved)) (cid : String) (r : Resolved)
    (hload : loadDependencies reg t fuel = .ok m)
    (hlook : lookupAssoc m cid = some r)
    (henabled : r.reason = none) :
    r.required.Nodup ∧
    ((∀ c ∈ reg, c.injects = []) → (provider reg t cid).fst = some cid →
      r.required.head? = some cid) := by
  obtain ⟨m0, cacheF, hra, hm⟩ := loadDependencies_ok hload
  obtain ⟨AF, _, HF, _⟩ := resolveAll_ok reg [] m0 cacheF (cacheOk_nil reg t) hra
  have hnodup0 : NodupMap m0 := by
    intro p hp
    have hf := HF p hp
    by_cases hre : (Prod.snd p).reason = none
    · obtain ⟨k, hk, _⟩ := hf.1 hre
      exact ((AF k p.2 hk).1 hre).2.1
    · rw [hf.2 hre]
      exact List.nodup_nil
  constructor
  · have hn : NodupMap m := by
      rw [hm]
      exact applyInjects_nodup reg m0 hnodup0
    exact hn (cid, r) (lookupAssoc_mem m cid r hlook)
  · intro hinj hprov
    rw [hm, applyInjects_empty hinj] at hlook
    have hf := HF (cid, r) (lookupAssoc_mem m0 cid r hlook)
    obtain ⟨k, hk, hor⟩ := hf.1 henabled
    have hkc : k = cid := by
      rcases hor with h | h
      · exact h
      · rw [hprov] at h
        injection h with h
        exact h.symm
    subst hkc
    exact ((AF k r hk).1 henabled).1

/-- Witness for C2 at a concrete two-component registry without injects,
where the resolver selects each component for its own id. -/
theorem spec_c2_witness :
    (["myapp", "mylib"] : List String).Nodup ∧
    (["myapp", "mylib"] : List String).head? = some "myapp" := by
  have h := spec_c2_required_head_nodup
    [{ id := "myapp", requires := ["mylib"] }, { id := "mylib" }]
    { id := "host" } 5
    [("myapp", { required := ["myapp", "mylib"] }),
     ("mylib", { required := ["mylib"] })]
    "myapp" { required := ["myapp", "mylib"] }
    (by decide) (by decide) (by decide)
  exact ⟨h.1, h.2 (by decide) (by decide)⟩

/-- Counterexample to C2 as stated: after the injection pass, component b
is enabled but its required list ["a", "b"] has the injector "a" at
position 0 rather than b's own id. -/
theorem spec_c2_counterexample :
    loadResolved [{ id := "a", injects := ["b"] }, { id := "b" }]
      { id := "host" } 5 "b"
      = some { reason := none, required := ["a", "b"], injected := ["a"] }
    ∧ (["a", "b"] : List String).head? ≠ some "b" := by
  decide

/-- C3: on the success path, `Resolver.resolve` concatenates `[P]` with
the flattened required lists of the requirements (in declared order) and
deduplicates keeping the first occurrence of every id;
`uniqPreserveOrder` agrees with first-occurrence deduplication, which
keeps the head and filters later duplicates out. -/
theorem spec_c3_dedup_first_occurrence :
    (∀ (reg : List Component) (t : Target) (fuel : Nat)
      (what keep e : String) (stack : List String) (cache cache1 : Cache)
      (comp : Component) (flat : List String),
      lookupAssoc cache what = none →
      provider reg t what = (some keep, e) →
      lookupAssoc cache keep = none →
      keep ∉ stack →
      lookupComp reg keep = some comp →
      resolveMany (resolveF reg t fuel) comp.requires (stack ++ [keep]) cache
        = .ok (.success flat cache1) →
      resolveF reg t (fuel + 1) what stack cache
        = .ok ({ required := firstOccDedup (keep :: flat) },
            cacheInsert cache1 keep
              { required := firstOccDedup (keep :: flat) }))
    ∧ (∀ l, uniqPreserveOrder l = firstOccDedup l)
    ∧ (∀ x xs, firstOccDedup (x :: xs)
        = x :: firstOccDedup (xs.filter (fun y => decide (y ≠ x)))) := by
  refine ⟨?_, uniqPreserveOrder_eq_firstOccDedup, firstOccDedup_cons⟩
  intro reg t fuel what keep e stack cache cache1 comp flat h1 h2 h3 h4 h5 h6
  rw [resolveF_step_success h1 h2 h3 h4 h5 h6,
    uniqPreserveOrder_eq_firstOccDedup]

/-- Witness for C3 on the three-component registry of the indirect
provides scenario. -/
theorem spec_c3_witness :
    resolveF
      [{ id := "myapp", requires := ["mylib"] },
       { id := "mylib", requires := ["myembed"] },
       { id := "myimpl", provides := ["myembed"] }]
      { id := "host" } 10 "myapp" [] []
      = .ok ({ required := firstOccDedup ("myapp" :: ["mylib", "myimpl"]) },
          cacheInsert
            [("mylib", { required := ["mylib", "myimpl"] }),
             ("myimpl", { required := ["myimpl"] })]
            "myapp"
            { required := firstOccDedup ("myapp" :: ["mylib", "myimpl"]) }) :=
  spec_c3_dedup_first_occurrence.1 _ _ 9 "myapp" "myapp" "" [] []
    [("mylib", { required := ["mylib", "myimpl"] }),
     ("myimpl", { required := ["myimpl"] })]
    { id := "myapp", requires := ["mylib"] } ["mylib", "myimpl"]
    (by decide) (by decide) (by decide) (by decide) (by decide) (by decide)

/-- C4 (amended): with zero candidates, or two or more candidates all
disabled, resolve caches and returns reason `No provider for such spec`;
with two or more enabled providers it returns the `Multiple providers`
reason listing the enabled candidate ids. The case of exactly one
candidate which is disabled is excluded: there the candidate's own
disable reason is returned instead. -/
theorem spec_c4_provider_errors :
    (∀ (reg : List Component) (t : Target) (fuel : Nat) (spec : String)
      (stack : List String) (cache : Cache),
      lookupAssoc cache spec = none →
      (mappingsFor reg t spec).filter (fun c => (c.isEnabled t).fst) = [] →
      (mappingsFor reg t spec = [] ∨ 2 ≤ (mappingsFor reg t spec).length) →
      resolveF reg t (fuel + 1) spec stack cache
        = .ok ({ reason := some ("No provider for '" ++ spec ++ "'") },
            cacheInsert cache spec
              { reason := some ("No provider for '" ++ spec ++ "'") }))
    ∧ (∀ (reg : List Component) (t : Target) (fuel : Nat) (spec : String)
      (stack : List String) (cache : Cache),
      lookupAssoc cache spec = none →
      2 ≤ ((mappingsFor reg t spec).filter (fun c => (c.isEnabled t).fst)).length →
      resolveF reg t (fuel + 1) spec stack cache
        = .ok ({ reason := some ("Multiple providers for '" ++ spec ++ "': "
              ++ String.intercalate ","
                (((mappingsFor reg t spec).filter
                  (fun c => (c.isEnabled t).fst)).map Component.id)) },
            cacheInsert cache spec
              { reason := some ("Multiple providers for '" ++ spec ++ "': "
                ++ String.intercalate ","
                  (((mappingsFor reg t spec).filter
                    (fun c => (c.isEnabled t).fst)).map Component.id)) })) := by
  constructor
  · intro reg t fuel spec stack cache h1 hf hs
    exact resolveF_step_provider_fail h1 (provider_no_provider hf hs)
  · intro reg t fuel spec stack cache h1 hf
    exact resolveF_step_provider_fail h1 (provider_multiple hf)

/-- Witness for C4: zero candidates yield the no-provider reason, and two
enabled providers yield the multiple-providers reason naming both ids. -/
theorem spec_c4_witness :
    resolveF [] { id := "host" } 1 "x" [] []
      = .ok ({ reason := some ("No provider for '" ++ "x" ++ "'") },
          cacheInsert [] "x"
            { reason := some ("No provider for '" ++ "x" ++ "'") })
    ∧ resolveF [{ id := "p1", provides := ["s"] },
        { id := "p2", provides := ["s"] }] { id := "host" } 1 "s" [] []
      = .ok ({ reason := some "Multiple providers for 's': p1,p2" },
          cacheInsert [] "s"
            { reason := some "Multiple providers for 's': p1,p2" }) := by
  constructor
  · exact spec_c4_provider_errors.1 [] { id := "host" } 0 "x" [] []
      (by decide) (by decide) (by decide)
  · have h := spec_c4_provider_errors.2
      [{ id := "p1", provides := ["s"] }, { id := "p2", provides := ["s"] }]
      { id := "host" } 0 "s" [] [] (by decide) (by decide)
    rw [h]
    decide

/-- Counterexample to C4 as stated: a single disabled candidate leaves
the enabled-filtered provider list empty, yet resolve reports the
candidate's own disable reason, not the generic no-provider reason. -/
theorem spec_c4_counterexample :
    runResolve [{ id := "x", enableIf := [("k", [.vStr "a"])] }]
      { id := "host" } 2 "x"
      = some { reason := some "Missing props 'k' in target" }
    ∧ (mappingsFor [{ id := "x", enableIf := [("k", [.vStr "a"])] }]
        { id := "host" } "x").filter
        (fun c => (c.isEnabled { id := "host" }).fst) = []
    ∧ "Missing props 'k' in target" ≠ "No provider for 'x'" := by
  decide

/-- C5: a component is enabled for a target iff every enableIf key is
present in the target props with a value contained in the allowed list;
a failure reports the first failing key, as a missing-props reason or a
props-mismatch reason naming got and expected values; in particular
enableIf {freestanding: [false]} against props {freestanding: true}
gives reason Props missmatch for freestanding with Got True, expected
False. -/
theorem spec_c5_enable_if :
    (∀ (c : Component) (t : Target),
      (c.isEnabled t).fst = true ↔
        ∀ kv ∈ c.enableIf, ∃ v, lookupAssoc t.props kv.fst = some v ∧
          kv.snd.any (fun x => v.pyEq x) = true)
    ∧ (∀ (c : Component) (t : Target) (r : String),
        c.isEnabled t = (false, r) →
        ∃ pre k vs rest, c.enableIf = pre ++ (k, vs) :: rest ∧
          (∀ kv ∈ pre, ∃ v, lookupAssoc t.props kv.fst = some v ∧
            kv.snd.any (fun x => v.pyEq x) = true) ∧
          ((lookupAssoc t.props k = none ∧
              r = "Missing props '" ++ k ++ "' in target") ∨
            (∃ v, lookupAssoc t.props k = some v ∧
              vs.any (fun x => v.pyEq x) = false ∧
              r = "Props missmatch for '" ++ k ++ "': Got '" ++ v.pyStr
                ++ "' but expected "
                ++ String.intercalate ", "
                  (vs.map (fun x => "'" ++ x.pyStr ++ "'")))))
    ∧ Component.isEnabled
        { id := "myapp", enableIf := [("freestanding", [.vBool false])] }
        { id := "host", props := [("freestanding", .vBool true)] }
      = (false,
          "Props missmatch for 'freestanding': Got 'True' but expected 'False'") := by
  refine ⟨?_, ?_, by decide⟩
  · intro c t
    exact enabledCheck_true_iff t c.enableIf
  · intro c t r h
    exact enabledCheck_false_spec t c.enableIf r h

/-- Witness for C5: the enablement equivalence evaluated at a concrete
enabled component. -/
theorem spec_c5_witness :
    ((⟨"lib", [("arch", [.vStr "x86"])], [], [], []⟩ : Component).isEnabled
        ⟨"host", [("arch", .vStr "x86")], []⟩).fst = true :=
  (spec_c5_enable_if.1 _ _).mpr (by decide)

/-- C6: when the selected provider is already on the resolution stack,
resolve raises the dependency-loop error naming the spec, the stack and
the provider, instead of returning a Resolved; the two-component cycle
{a requires [b], b requires [a]} raises exactly that error. -/
theorem spec_c6_dependency_loop :
    (∀ (reg : List Component) (t : Target) (fuel : Nat)
      (what keep e : String) (stack : List String) (cache : Cache),
      lookupAssoc cache what = none →
      provider reg t what = (some keep, e) →
      lookupAssoc cache keep = none →
      keep ∈ stack →
      resolveF reg t (fuel + 1) what stack cache
        = .error ("Dependency loop while resolving '" ++ what ++ "': "
            ++ pyListRepr stack ++ " -> " ++ keep))
    ∧ resolveF
        [{ id := "a", requires := ["b"] }, { id := "b", requires := ["a"] }]
        { id := "host" } 5 "a" [] []
      = .error "Dependency loop while resolving 'a': ['a', 'b'] -> a" := by
  refine ⟨?_, by decide⟩
  intro reg t fuel what keep e stack cache h1 h2 h3 h4
  exact resolveF_step_loop h1 h2 h3 h4

/-- Witness for C6 at a one-component registry whose id already sits on
the stack. -/
theorem spec_c6_witness :
    resolveF [{ id := "a" }] { id := "host" } 3 "a" ["a"] []
      = .error ("Dependency loop while resolving '" ++ "a" ++ "': "
          ++ pyListRepr ["a"] ++ " -> " ++ "a") :=
  spec_c6_dependency_loop.1 [{ id := "a" }] { id := "host" } 2 "a" "a" ""
    ["a"] [] (by decide) (by decide) (by decide) (by decide)

/-- C7 (amended): when no component declares injects and the target has
no routing, the required lists after registry load are transitively
closed: every member x of an enabled component's required list has its
own loaded required list contained in it. -/
theorem spec_c7_closure_no_injects
    (reg : List Component) (t : Target) (fuel : Nat)
    (m : List (String × Resolved)) (cid x : String) (rC rX : Resolved)
    (hroute : t.routing = [])
    (hinj : ∀ c ∈ reg, c.injects = [])
    (hload : loadDependencies reg t fuel = .ok m)
    (hC : lookupAssoc m cid = some rC)
    (hCe : rC.reason = none)
    (hx : x ∈ rC.required)
    (hX : lookupAssoc m x = some rX) :
    ∀ y ∈ rX.required, y ∈ rC.required := by
  obtain ⟨m0, cacheF, hra, hm⟩ := loadDependencies_ok hload
  rw [applyInjects_empty hinj] at hm
  rw [hm] at hC hX
  obtain ⟨AF, _, HF, _⟩ := resolveAll_ok reg [] m0 cacheF (cacheOk_nil reg t) hra
  have hCfact := HF (cid, rC) (lookupAssoc_mem m0 cid rC hC)
  obtain ⟨kC, hkC, _⟩ := hCfact.1 hCe
  have hclC : closedIn cacheF rC.required := ((AF kC rC hkC).1 hCe).2.2.1
  obtain ⟨rx, hrx, hrxe, hsub⟩ := hclC x hx
  have hXcomp := ((AF x rx hrx).1 hrxe).2.2.2
  have hXfact := HF (x, rX) (lookupAssoc_mem m0 x rX hX)
  by_cases hXe : rX.reason = none
  · obtain ⟨k, hk, hkor⟩ := hXfact.1 hXe
    have hkx : k = x := by
      rcases hkor with h | h
      · exact h
      · exact provider_id_self hroute hXcomp h
    subst hkx
    rw [hk] at hrx
    injection hrx with hrx
    intro y hy
    apply hsub
    rw [← hrx]
    exact hy
  · have hreq := hXfact.2 hXe
    intro y hy
    rw [hreq] at hy
    simp at hy

/-- Witness for C7 on the indirect-provides registry: mylib's closure is
contained in myapp's. -/
theorem spec_c7_witness :
    "mylib" ∈ (["myapp", "mylib", "myimpl"] : List String) ∧
    "myimpl" ∈ (["myapp", "mylib", "myimpl"] : List String) := by
  have h := spec_c7_closure_no_injects
    [{ id := "myapp", requires := ["mylib"] },
     { id := "mylib", requires := ["myembed"] },
     { id := "myimpl", provides := ["myembed"] }]
    { id := "host" } 10
    [("myapp", { required := ["myapp", "mylib", "myimpl"] }),
     ("mylib", { required := ["mylib", "myimpl"] }),
     ("myimpl", { required := ["myimpl"] })]
    "myapp" "mylib"
    { required := ["myapp", "mylib", "myimpl"] }
    { required := ["mylib", "myimpl"] }
    rfl (by decide) (by decide) (by decide) rfl (by decide) (by decide)
  exact ⟨h "mylib" (by decide), h "myimpl" (by decide)⟩

/-- Counterexample to C7 as stated: component c injects into b, so after
load b's required list gains "c", which is not in the required list of a,
although b is. -/
theorem spec_c7_counterexample :
    loadResolved
      [{ id := "a", requires := ["b"] }, { id := "b" },
       { id := "c", injects := ["b"] }]
      { id := "host" } 5 "a"
      = some { reason := none, required := ["a", "b"], injected := [] }
    ∧ loadResolved
        [{ id := "a", requires := ["b"] }, { id := "b" },
         { id := "c", injects := ["b"] }]
        { id := "host" } 5 "b"
      = some { reason := none, required := ["c", "b"], injected := ["c"] }
    ∧ "b" ∈ (["a", "b"] : List String)
    ∧ "c" ∈ (["c", "b"] : List String)
    ∧ "c" ∉ (["a", "b"] : List String) := by
  decide

/-- C8: the cdefs variable maps each target prop to preprocessor defines:
boolean true emits one flag, boolean false emits none, any other value
emits the two flags including the `_value=` form, and the result is
sorted; props {debug: true, arch: x86_64} yield exactly the three flags
of the claim. -/
theorem spec_c8_cdefs :
    computeCdef [("debug", .vBool true), ("arch", .vStr "x86_64")]
      = ["-D__ck_arch_value=x86_64", "-D__ck_arch_x86_64__", "-D__ck_debug__"]
    ∧ (∀ props : Props,
        (computeCdef props).Pairwise (fun a b => strLe a b = true))
    ∧ (∀ (a : String) (props : Props),
        a ∈ computeCdef props ↔ ∃ kv ∈ props, a ∈ cdefEmit kv.fst kv.snd)
    ∧ (∀ k : String, cdefEmit k (.vBool true)
        = ["-D__ck_" ++ sanatize k ++ "__"])
    ∧ (∀ k : String, cdefEmit k (.vBool false) = [])
    ∧ (∀ (k s : String), cdefEmit k (.vStr s)
        = ["-D__ck_" ++ sanatize k ++ "_" ++ sanatize s ++ "__",
           "-D__ck_" ++ sanatize k ++ "_value=" ++ s]) := by
  refine ⟨by decide, ?_, ?_, fun k => rfl, fun k => rfl, fun k s => rfl⟩
  · intro props
    exact sortStrings_sorted _
  · intro a props
    exact mem_computeCdef a props

/-- C9 (amended): a string whose opening brace has no closing brace
anywhere is passed through expansion unchanged; expansion does not fail
on it. -/
theorem spec_c9_unmatched_brace_passthrough
    (ev : List Char → Except String (List Char)) (fuel : Nat)
    (l : List Char) (hopen : '\x7b' ∈ l) (hclose : '\x7d' ∉ l) :
    evalStrLoop ev (fuel + 1) l = .ok l :=
  evalStrLoop_passthrough ev fuel l hclose

/-- Witness for C9 on a concrete string with an unmatched opening brace. -/
theorem spec_c9_witness :
    evalStrLoop (fun c => .ok c) 3 ("x\x7by".toList)
      = .ok ("x\x7by".toList) :=
  spec_c9_unmatched_brace_passthrough (fun c => .ok c) 2 ("x\x7by".toList)
    (by decide) (by decide)

/-- Counterexample to C9 as stated: expansion of a string with a literal
opening brace and no closing brace succeeds and returns the string
unchanged instead of failing. -/
theorem spec_c9_counterexample :
    evalStrLoop (fun _ => .ok []) 5 ("a\x7bb".toList) = .ok ("a\x7bb".toList)
    ∧ '\x7b' ∈ "a\x7bb".toList
    ∧ '\x7d' ∉ "a\x7bb".toList := by
  decide

/-- C10: with exactly one candidate provider which is disabled, resolve
returns that candidate's own disable reason; the generic no-provider
reason appears only with zero candidates, or with two or more candidates
all disabled. -/
theorem spec_c10_single_disabled :
    (∀ (reg : List Component) (t : Target) (fuel : Nat) (spec : String)
      (stack : List String) (cache : Cache) (c : Component),
      lookupAssoc cache spec = none →
      mappingsFor reg t spec = [c] →
      (c.isEnabled t).fst = false →
      resolveF reg t (fuel + 1) spec stack cache
        = .ok ({ reason := some (c.isEnabled t).snd },
            cacheInsert cache spec { reason := some (c.isEnabled t).snd }))
    ∧ (∀ (reg : List Component) (t : Target) (fuel : Nat) (spec : String)
      (stack : List String) (cache : Cache),
      lookupAssoc cache spec = none →
      mappingsFor reg t spec = [] →
      resolveF reg t (fuel + 1) spec stack cache
        = .ok ({ reason := some ("No provider for '" ++ spec ++ "'") },
            cacheInsert cache spec
              { reason := some ("No provider for '" ++ spec ++ "'") }))
    ∧ (∀ (reg : List Component) (t : Target) (fuel : Nat) (spec : String)
      (stack : List String) (cache : Cache),
      lookupAssoc cache spec = none →
      2 ≤ (mappingsFor reg t spec).length →
      (mappingsFor reg t spec).filter (fun c => (c.isEnabled t).fst) = [] →
      resolveF reg t (fuel + 1) spec stack cache
        = .ok ({ reason := some ("No provider for '" ++ spec ++ "'") },
            cacheInsert cache spec
              { reason := some ("No provider for '" ++ spec ++ "'") })) := by
  refine ⟨?_, ?_, ?_⟩
  · intro reg t fuel spec stack cache c h1 hm he
    exact resolveF_step_provider_fail h1 (provider_single_disabled hm he)
  · intro reg t fuel spec stack cache h1 hm
    refine resolveF_step_provider_fail h1 (provider_no_provider ?_ (Or.inl hm))
    rw [hm]
    rfl
  · intro reg t fuel spec stack cache h1 hlen hf
    exact resolveF_step_provider_fail h1 (provider_no_provider hf (Or.inr hlen))

/-- Witness for C10: the single disabled candidate's missing-props reason
is what resolve returns. -/
theorem spec_c10_witness :
    resolveF [{ id := "x", enableIf := [("k", [.vStr "a"])] }]
      { id := "host" } 1 "x" [] []
      = .ok ({ reason := some ((Component.isEnabled
            { id := "x", enableIf := [("k", [.vStr "a"])] }
            { id := "host" }).snd) },
          cacheInsert [] "x"
            { reason := some ((Component.isEnabled
              { id := "x", enableIf := [("k", [.vStr "a"])] }
              { id := "host" }).snd) }) :=
  spec_c10_single_disabled.1 [{ id := "x", enableIf := [("k", [.vStr "a"])] }]
    { id := "host" } 0 "x" [] [] { id := "x", enableIf := [("k", [.vStr "a"])] }
    (by decide) (by decide) (by decide)

end Cutekit
